import Mathlib

/-!
Verification of the message translation layer of a Google GenAI chat binding.

The development shallowly embeds the pure translation functions of
`src/utils/message-outputs.ts`, `src/utils/message-inputs.ts`,
`src/utils/interaction-utils.ts` and the routing predicate of
`src/chat-models.ts`.  Conventions used throughout:

* JSON argument values are represented by their serialized text
  (`Option String`); the `JSON.stringify` / `JSON.parse` round trip is
  therefore the identity on this representation.
* JavaScript `undefined` is `Option.none`; JavaScript string truthiness
  (`''` is falsy) is modelled explicitly at each use site.
* `uuidv4()` is modelled by an ambient supply of identifier strings,
  indexed by call occurrence.
* Thrown `Error`s become `Except` errors with structured constructors
  mirroring the thrown messages.
-/

namespace GenAI

/-- Wire-level function call of the standard protocol (`FunctionCall` from
`@google/genai`).  `args` is the serialized JSON argument object. -/
structure FunctionCall where
  name : Option String := none
  args : Option String := none
  id : Option String := none
deriving Repr, DecidableEq

/-- Inline base64 image data of a standard-protocol part. -/
structure InlineData where
  mimeType : String
  data : String
deriving Repr, DecidableEq

/-- External file reference of a standard-protocol part. -/
structure FileData where
  mimeType : String
  fileUri : String
deriving Repr, DecidableEq

/-- LangChain image_url field: a plain string, an object with a `url`
field, or some other object (which the encoders reject). -/
inductive ImageUrlField
  | str (s : String)
  | obj (url : String)
  | invalid
deriving Repr, DecidableEq

/-- One LangChain content block, a typed record with a `type` discriminant
and the optional fields the source reads (`text`, `reasoning`,
`image_url`, and the streaming merge `index`). -/
structure LCBlock where
  type : String
  text : Option String := none
  reasoning : Option String := none
  image_url : Option ImageUrlField := none
  index : Option Nat := none
deriving Repr, DecidableEq

/-- LangChain `MessageContent`: a plain string or a list of blocks. -/
inductive MContent
  | str (s : String)
  | blocks (bs : List LCBlock)
deriving Repr, DecidableEq

/-- Payload of a standard-protocol `functionResponse` part. -/
structure FunctionResponsePayload where
  name : String
  responseName : Option String := none
  responseContent : MContent := .str ""
deriving Repr, DecidableEq

/-- One standard-protocol wire `Part`; tagged by which optional field is
present, and optionally carrying a thought signature. -/
structure Part where
  text : Option String := none
  thought : Bool := false
  thoughtSignature : Option String := none
  inlineData : Option InlineData := none
  fileData : Option FileData := none
  functionCall : Option FunctionCall := none
  functionResponse : Option FunctionResponsePayload := none
  executableCode : Option String := none
  codeExecutionResult : Option String := none
deriving Repr, DecidableEq

/-- Errors thrown by the encoders/decoders (each constructor corresponds
to one `throw new Error(...)` site in the source). -/
inductive ConvError
  | invalidBase64DataUrl
  | invalidImageUrlFormat
  | unsupportedBlock (type : String)
  | unsupportedMessage (type : String)
  | emptyResponse
deriving Repr, DecidableEq

/-- Concatenation of a list of strings (the `+=` accumulation and
`join('')` calls of the source). -/
def strJoin : List String → String
  | [] => ""
  | s :: rest => s ++ strJoin rest

/-- JavaScript `String.prototype.startsWith`, phrased over character
lists so that it evaluates inside the kernel. -/
def strStartsWith (s pre : String) : Bool :=
  s.toList.take pre.toList.length = pre.toList

/-- Characters matched by `.` in a JavaScript regex without the `s` flag
(everything except line terminators). -/
def dotChar (c : Char) : Bool :=
  c != '\n' && c != '\r' && c != Char.ofNat 0x2028 && c != Char.ofNat 0x2029

/-- All decompositions `t = a ++ ";base64," ++ b`, listed in increasing
length of `a`. -/
def b64Splits : List Char → List (List Char × List Char)
  | [] => []
  | c :: cs =>
    (if (c :: cs).take 8 = ";base64,".toList then
      [(([] : List Char), (c :: cs).drop 8)]
    else []) ++ (b64Splits cs).map (fun p => (c :: p.1, p.2))

/-- A decomposition usable by the regex `^data:(.+);base64,(.+)$`: both
groups nonempty and containing only `.`-matchable characters. -/
def validB64Split (p : List Char × List Char) : Bool :=
  !p.1.isEmpty && !p.2.isEmpty && p.1.all dotChar && p.2.all dotChar

/-- Matches the tail (after `data:`) against `(.+);base64,(.+)$` with the
greedy first group: the valid decomposition with the longest first group
wins, exactly as the backtracking regex engine chooses it. -/
def matchDataUrlTail (t : List Char) : Option (String × String) :=
  match ((b64Splits t).filter validB64Split).getLast? with
  | some p => some (String.mk p.1, String.mk p.2)
  | none => none

/-- Embedding of `parseBase64Data` (message-inputs.ts): apply the regex
`^data:(.+);base64,(.+)$`; on failure throw `Invalid base64 image data
URL`. -/
def parseBase64Data (dataUrl : String) : Except ConvError (String × String) :=
  if strStartsWith dataUrl "data:" then
    match matchDataUrlTail (dataUrl.toList.drop 5) with
    | some md => .ok md
    | none => .error .invalidBase64DataUrl
  else .error .invalidBase64DataUrl

/-- JavaScript truthiness of the `image_url` field (`''` is falsy, any
object is truthy, `undefined` is falsy). -/
def imageUrlTruthy : Option ImageUrlField → Bool
  | none => false
  | some (.str s) => s != ""
  | some (.obj _) => true
  | some .invalid => true

/-- Extraction of the url string from an `image_url` field
(message-inputs.ts lines 253-260): strings pass through, objects expose
`url`, anything else throws `Invalid image_url block format`. -/
def imageUrlString : Option ImageUrlField → Except ConvError String
  | some (.str s) => .ok s
  | some (.obj u) => .ok u
  | _ => .error .invalidImageUrlFormat

/-- Embedding of the per-block body of `convertContentToParts`
(message-inputs.ts lines 239-283). -/
def convertBlockToPart (b : LCBlock) : Except ConvError Part :=
  if b.type = "text" ∧ b.text.isSome then
    .ok { text := b.text }
  else if b.type = "reasoning" ∧ b.reasoning.isSome then
    .ok { text := b.reasoning, thought := true }
  else if b.type = "image_url" ∧ imageUrlTruthy b.image_url then
    match imageUrlString b.image_url with
    | .error e => .error e
    | .ok url =>
      if strStartsWith url "data:" then
        match parseBase64Data url with
        | .error e => .error e
        | .ok md => .ok { inlineData := some ⟨md.1, md.2⟩ }
      else if strStartsWith url "gs://" ∨ strStartsWith url "https://" then
        .ok { fileData := some ⟨"image/jpeg", url⟩ }
      else .error (.unsupportedBlock b.type)
  else .error (.unsupportedBlock b.type)

/-- Embedding of `convertContentToParts` (message-inputs.ts): a plain
string becomes zero or one text part, a block list is converted
element-wise with the first failure aborting the encode. -/
def convertContentToParts : MContent → Except ConvError (List Part)
  | .str s => if s = "" then .ok [] else .ok [{ text := some s }]
  | .blocks bs => bs.mapM convertBlockToPart

/-- A LangChain tool call.  `args` is the serialized JSON argument
object; `name` is optional because decoded interaction outputs may omit
it. -/
structure ToolCall where
  name : Option String := none
  args : Option String := none
  id : Option String := none
deriving Repr, DecidableEq

/-- Response metadata fields of a LangChain message that the encoders
read back (`thoughtSignature` for the standard path, `thought_signature`
for the interactions path). -/
structure MsgMeta where
  thoughtSignature : Option String := none
  thought_signature : Option String := none
deriving Repr, DecidableEq

/-- The LangChain message classes the translation layer distinguishes. -/
inductive Msg
  | system (content : MContent)
  | human (content : MContent)
  | ai (content : MContent) (tool_calls : List ToolCall) (meta : MsgMeta)
  | tool (content : MContent) (name : Option String) (tool_call_id : String)
      (isError : Bool)
  | chat (role : String) (content : MContent)
deriving Repr, DecidableEq

/-- Content accessor shared by every message class. -/
def Msg.content : Msg → MContent
  | .system c => c
  | .human c => c
  | .ai c _ _ => c
  | .tool c _ _ _ => c
  | .chat _ c => c

/-- Whether the message is a system message (`SystemMessage.isInstance`). -/
def Msg.isSystem : Msg → Bool
  | .system _ => true
  | _ => false

/-- Role assignment of the standard assembler (message-inputs.ts line
340): AI messages map to `model`, every other non-system message to
`user`. -/
def Msg.googleRole : Msg → String
  | .ai _ _ _ => "model"
  | _ => "user"

/-- One standard-protocol wire content entry. -/
structure Content where
  role : String
  parts : List Part
deriving Repr, DecidableEq

/-- Embedding of `convertToolCallToPart` (message-inputs.ts): the tool
call's id is not forwarded to the wire part. -/
def convertToolCallToPart (tc : ToolCall) : Part :=
  { functionCall := some { name := tc.name, args := tc.args } }

/-- Embedding of `convertToolMessageToPart` (message-inputs.ts). -/
def convertToolMessageToPart (content : MContent) (name : Option String) : Part :=
  { functionResponse := some
      { name := name.getD "", responseName := name, responseContent := content } }

/-- Attachment of a continuation signature to a freshly encoded part
list (message-inputs.ts lines 364-373): overwrite the signature of the
last part, or append a zero-text carrier part when there is none. -/
def attachSignature (sig : String) (ps : List Part) : List Part :=
  match ps.getLast? with
  | none => [{ text := some "", thoughtSignature := some sig }]
  | some last => ps.dropLast ++ [{ last with thoughtSignature := some sig }]

/-- Embedding of the per-message body of the standard assembler loop
(message-inputs.ts lines 339-374): content parts, then AI tool-call
parts, then the tool-result part, then signature reinjection. -/
def encodeMessageParts (m : Msg) : Except ConvError (List Part) := do
  let base ← convertContentToParts m.content
  let withTools := match m with
    | .ai _ tcs _ => base ++ tcs.map convertToolCallToPart
    | _ => base
  let withResult := match m with
    | .tool c nm _ _ => withTools ++ [convertToolMessageToPart c nm]
    | _ => withTools
  match m with
  | .ai _ _ meta =>
    match meta.thoughtSignature with
    | some sig => pure (attachSignature sig withResult)
    | none => pure withResult
  | _ => pure withResult

/-- Merge step of the standard assembler (message-inputs.ts lines
376-389): append the parts into the last content entry when it has the
same role, otherwise open a new entry. -/
def appendContent (contents : List Content) (role : String) (ps : List Part) :
    List Content :=
  match contents.getLast? with
  | some last =>
    if last.role = role then
      contents.dropLast ++ [{ last with parts := last.parts ++ ps }]
    else contents ++ [⟨role, ps⟩]
  | none => contents ++ [⟨role, ps⟩]

/-- Result of the standard assembler. -/
structure GooglePayload where
  contents : List Content
  systemInstruction : Option Content := none
deriving Repr, DecidableEq

/-- Embedding of `convertMessagesToGooglePayload` (message-inputs.ts):
system text is split off into a system instruction, the remaining
messages are encoded in order and adjacent same-role entries merged. -/
def convertMessagesToGooglePayload (messages : List Msg) :
    Except ConvError GooglePayload := do
  let systemPartLists ← (messages.filter Msg.isSystem).mapM
    (fun m => convertContentToParts m.content)
  let systemParts := systemPartLists.flatten
  let systemInstruction :=
    if systemParts.isEmpty then none else some (⟨"system", systemParts⟩ : Content)
  let contents ← (messages.filter (fun m => !m.isSystem)).foldlM
    (fun acc m => do
      let ps ← encodeMessageParts m
      pure (appendContent acc m.googleRole ps)) []
  pure ⟨contents, systemInstruction⟩

/-- One interactions-protocol content item (the `Interactions.*Content`
union of `@google/genai`). -/
inductive Item
  | text (text : String)
  | image (data : Option String) (mime_type : Option String) (uri : Option String)
  | functionCall (id : String) (name : Option String) (arguments : Option String)
  | functionResult (call_id : String) (name : Option String) (result : MContent)
      (is_error : Bool)
  | thought (signature : String)
deriving Repr, DecidableEq

/-- Signature carried by an interactions item, if any. -/
def itemSignature : Item → Option String
  | .thought s => some s
  | _ => none

/-- Embedding of the per-block body of `formatContent`
(interaction-utils.ts lines 25-75): text and image blocks convert,
every other block maps to `undefined` and is filtered out afterwards. -/
def formatItem (b : LCBlock) : Except ConvError (Option Item) :=
  if b.type = "text" then
    .ok (some (.text (match b.text with | some t => t | none => "")))
  else if b.type = "image_url" then
    match b.image_url with
    | some (.str url) => formatImageItem url
    | some (.obj url) => formatImageItem url
    | _ => .error .invalidImageUrlFormat
  else .ok none
where
  /-- Image branch (interaction-utils.ts lines 49-72): `data:` urls must
  match the base64 regex (else `Invalid data URL format` is thrown),
  other urls become a bare uri; empty fields are left unset. -/
  formatImageItem (url : String) : Except ConvError (Option Item) :=
    if strStartsWith url "data:" then
      match matchDataUrlTail (url.toList.drop 5) with
      | some md => .ok (some (.image (some md.2) (some md.1) none))
      | none => .error .invalidBase64DataUrl
    else if url = "" then .ok (some (.image none none none))
    else .ok (some (.image none none (some url)))

/-- Embedding of `formatContent` (interaction-utils.ts): strings become a
single text item; block lists are converted element-wise and the
unconvertible entries silently dropped. -/
def formatContent : MContent → Except ConvError (List Item)
  | .str s => .ok [.text s]
  | .blocks bs => do
    let items ← bs.mapM formatItem
    pure (items.filterMap id)

/-- Embedding of `formatToolResult` (interaction-utils.ts): under the
serialized-JSON convention of this development, the attempted
`JSON.parse` of a string and the pass-through of structured content are
both the identity. -/
def formatToolResult (c : MContent) : MContent := c

/-- One interactions-protocol turn. -/
structure Turn where
  role : String
  content : List Item
deriving Repr, DecidableEq

/-- Embedding of `convertMessageToGoogleTurn` (interaction-utils.ts):
note that for AI messages the thought-signature item is pushed first,
before any content or tool-call items, and that system messages yield
no turn. -/
def convertMessageToGoogleTurn : Msg → Except ConvError (Option Turn)
  | .human c => (formatContent c).map (fun items => some ⟨"user", items⟩)
  | .ai c tcs meta => do
    let sigItems : List Item := match meta.thought_signature with
      | some s => [.thought s]
      | none => []
    let contentItems ← match c with
      | .str s => pure (if s ≠ "" then [Item.text s] else [])
      | .blocks bs => formatContent (.blocks bs)
    let toolItems := tcs.map
      (fun tc => Item.functionCall (tc.id.getD "") tc.name tc.args)
    pure (some ⟨"model", sigItems ++ contentItems ++ toolItems⟩)
  | .tool c nm tcid isErr =>
    .ok (some ⟨"user", [.functionResult tcid nm (formatToolResult c) isErr]⟩)
  | .system _ => .ok none
  | .chat role c =>
    (formatContent c).map
      (fun items => some ⟨if role = "assistant" then "model" else role, items⟩)

/-- Result of the interactions assembler. -/
structure InteractionPayload where
  input : List Turn
  system_instruction : Option String := none
deriving Repr, DecidableEq

/-- System text extraction of the interactions assembler
(interaction-utils.ts lines 192-199). -/
def systemText : MContent → String
  | .str s => s
  | .blocks bs =>
    String.intercalate "\n"
      ((bs.filter (fun b => b.type = "text")).map (fun b => b.text.getD ""))

/-- One iteration of the interactions assembler loop
(interaction-utils.ts lines 190-215): system text accumulates into the
instruction string, every other message contributes its own turn. -/
def interactionStep (acc : InteractionPayload) (m : Msg) :
    Except ConvError InteractionPayload :=
  match m with
  | .system c =>
    let content := systemText c
    if content = "" then pure acc
    else
      pure { acc with system_instruction :=
        match acc.system_instruction with
        | some s => some (s ++ "\n" ++ content)
        | none => some content }
  | _ => do
    let t ← convertMessageToGoogleTurn m
    match t with
    | some turn => pure { acc with input := acc.input ++ [turn] }
    | none => pure acc

/-- Embedding of `convertMessagesToGoogleInteractionPayload`
(interaction-utils.ts): system text accumulates into one instruction
string; every other message contributes its own turn, with no merging of
adjacent same-role turns. -/
def convertMessagesToGoogleInteractionPayload (messages : List Msg) :
    Except ConvError InteractionPayload :=
  messages.foldlM interactionStep ⟨[], none⟩

/-- Usage counters of a standard-protocol response. -/
structure GUsage where
  promptTokenCount : Option Nat := none
  responseTokenCount : Option Nat := none
  totalTokenCount : Option Nat := none
deriving Repr, DecidableEq

/-- LangChain usage metadata. -/
structure UsageMetadata where
  input_tokens : Nat
  output_tokens : Nat
  total_tokens : Nat
deriving Repr, DecidableEq

/-- Embedding of `extractUsageMetadata` (message-outputs.ts). -/
def extractUsageMetadata : Option GUsage → Option UsageMetadata
  | none => none
  | some u => some
    { input_tokens := u.promptTokenCount.getD 0,
      output_tokens := u.responseTokenCount.getD 0,
      total_tokens := u.totalTokenCount.getD 0 }

/-- Content of a standard-protocol candidate. -/
structure CandContent where
  role : Option String := none
  parts : Option (List Part) := none
deriving Repr, DecidableEq

/-- One standard-protocol candidate. -/
structure Candidate where
  content : Option CandContent := none
  finishReason : Option String := none
  index : Option Nat := none
deriving Repr, DecidableEq

/-- A standard-protocol `GenerateContentResponse`.  `promptFeedback` is
carried as an opaque blob that the decoder spreads into its metadata. -/
structure GResponse where
  candidates : Option (List Candidate) := none
  usageMetadata : Option GUsage := none
  promptFeedback : Option String := none
deriving Repr, DecidableEq

/-- Truthy text of a part (`if (part.text)`: present and nonempty). -/
def truthyText (p : Part) : Option String :=
  match p.text with
  | some t => if t = "" then none else some t
  | none => none

/-- Plain (non-thought) truthy text contributed by a part to the
decoder's flat text. -/
def plainTextOf (p : Part) : Option String :=
  match truthyText p with
  | some t => if p.thought then none else some t
  | none => none

/-- Reasoning (thought) truthy text contributed by a part. -/
def thoughtTextOf (p : Part) : Option String :=
  match truthyText p with
  | some t => if p.thought then some t else none
  | none => none

/-- Flat text accumulated by the full-response decoder (message-outputs.ts
lines 164-167). -/
def stdText (parts : List Part) : String :=
  strJoin (parts.filterMap plainTextOf)

/-- Content block contributed by one part in the full-response decoder
(message-outputs.ts lines 155-168): truthy text becomes a reasoning or a
text block. -/
def stdBlockOf (p : Part) : Option LCBlock :=
  match truthyText p with
  | some t =>
    if p.thought then some { type := "reasoning", reasoning := some t }
    else some { type := "text", text := some t }
  | none => none

/-- Block list accumulated by the full-response decoder. -/
def stdBlocks (parts : List Part) : List LCBlock :=
  parts.filterMap stdBlockOf

/-- Tool calls accumulated by the full-response decoder (message-outputs.ts
lines 171-178), threading the fresh-identifier supply: `uuidv4()` is
drawn only when the server omitted the id. -/
def stdToolCallsAux (fresh : Nat → String) : List Part → Nat → List ToolCall
  | [], _ => []
  | p :: rest, k =>
    match p.functionCall with
    | some fc =>
      match fc.id with
      | some i =>
        { name := some (fc.name.getD ""), args := some (fc.args.getD "\x7b\x7d"),
          id := some i } :: stdToolCallsAux fresh rest k
      | none =>
        { name := some (fc.name.getD ""), args := some (fc.args.getD "\x7b\x7d"),
          id := some (fresh k) } :: stdToolCallsAux fresh rest (k + 1)
    | none => stdToolCallsAux fresh rest k

/-- Tool calls of the full-response decoder, fresh ids numbered from 0. -/
def stdToolCalls (fresh : Nat → String) (parts : List Part) : List ToolCall :=
  stdToolCallsAux fresh parts 0

/-- Last truthy occurrence of an optional string field over the part
list (`if (part.field) meta.field = part.field` in a loop). -/
def lastTruthy (f : Part → Option String) (parts : List Part) : Option String :=
  parts.foldl
    (fun acc p =>
      match f p with
      | some s => if s = "" then acc else some s
      | none => acc) none

/-- Response metadata assembled by the full-response decoder. -/
structure StdMeta where
  finishReason : Option String := none
  index : Option Nat := none
  promptFeedback : Option String := none
  thoughts : List String := []
  thoughtSignature : Option String := none
  executableCode : Option String := none
  codeExecutionResult : Option String := none
deriving Repr, DecidableEq

/-- The AI message produced by the full-response decoder. -/
structure AIMessageStd where
  content : MContent
  tool_calls : List ToolCall := []
  meta : StdMeta
  usage : Option UsageMetadata := none
deriving Repr, DecidableEq

/-- A standard-protocol chat generation (message plus flat text and
generation info). -/
structure ChatGenerationStd where
  text : String
  message : AIMessageStd
  finishReason : Option String := none
  index : Option Nat := none
deriving Repr, DecidableEq

/-- Success body of `convertGoogleResponseToChatGeneration`
(message-outputs.ts lines 144-213): accumulate text, blocks, tool calls
and metadata over the candidate's parts, then collapse the content to a
plain string exactly when no reasoning block was produced. -/
def decodeCandidate (fresh : Nat → String) (response : GResponse)
    (candidate : Candidate) (cc : CandContent) : ChatGenerationStd :=
  { text := stdText (cc.parts.getD []),
    message :=
      { content :=
          if (stdBlocks (cc.parts.getD [])).any (fun b => b.type = "reasoning")
          then .blocks (stdBlocks (cc.parts.getD []))
          else .str (stdText (cc.parts.getD [])),
        tool_calls := stdToolCalls fresh (cc.parts.getD []),
        meta :=
          { finishReason := candidate.finishReason,
            index := candidate.index,
            promptFeedback := response.promptFeedback,
            thoughts := (cc.parts.getD []).filterMap thoughtTextOf,
            thoughtSignature := lastTruthy Part.thoughtSignature (cc.parts.getD []),
            executableCode := lastTruthy Part.executableCode (cc.parts.getD []),
            codeExecutionResult :=
              lastTruthy Part.codeExecutionResult (cc.parts.getD []) },
        usage := extractUsageMetadata response.usageMetadata },
    finishReason := candidate.finishReason,
    index := candidate.index }

/-- Embedding of `convertGoogleResponseToChatGeneration`
(message-outputs.ts lines 138-214): fails on a missing candidate or
missing candidate content; otherwise decodes the candidate. -/
def convertGoogleResponseToChatGeneration (fresh : Nat → String)
    (response : GResponse) : Except ConvError ChatGenerationStd :=
  match (response.candidates.getD []).head? with
  | none => .error .emptyResponse
  | some candidate =>
    match candidate.content with
    | none => .error .emptyResponse
    | some cc => .ok (decodeCandidate fresh response candidate cc)

/-- One part of a thought output's summary. -/
structure SummaryPart where
  type : String
  text : Option String := none
deriving Repr, DecidableEq

/-- One output of an interactions-protocol response; unknown output
types are represented by `other`. -/
inductive IOutput
  | text (text : Option String)
  | image (mime_type : Option String) (data : Option String)
  | functionCall (id : Option String) (name : Option String)
      (arguments : Option String)
  | thought (signature : Option String) (summary : Option (List SummaryPart))
  | codeExecutionResult (info : String)
  | other (type : String)
deriving Repr, DecidableEq

/-- Usage counters of an interactions-protocol response. -/
structure IUsage where
  total_input_tokens : Option Nat := none
  total_output_tokens : Option Nat := none
  total_tokens : Option Nat := none
deriving Repr, DecidableEq

/-- An interactions-protocol `Interaction` response object. -/
structure Interaction where
  id : Option String := none
  model : Option String := none
  status : Option String := none
  outputs : Option (List IOutput) := none
  usage : Option IUsage := none
deriving Repr, DecidableEq

/-- Flat text accumulated by the interactions decoder
(interaction-utils.ts lines 248-250): only text outputs contribute,
missing text counting as empty. -/
def iTextOf : IOutput → String
  | .text t => t.getD ""
  | _ => ""

/-- Flat text of an interactions response's outputs. -/
def iText (outputs : List IOutput) : String :=
  strJoin (outputs.map iTextOf)

/-- Reasoning text of a thought summary (interaction-utils.ts line 274):
text items keep their text, other items contribute the empty string,
joined with newlines. -/
def summaryReasoningText (summary : List SummaryPart) : String :=
  String.intercalate "\n"
    (summary.map (fun s => if s.type = "text" then s.text.getD "" else ""))

/-- Content block contributed by one interactions output
(interaction-utils.ts lines 248-279): text and image outputs always
produce a block, thought outputs only when they carry a nonempty
summary, and function calls, code-execution results and unknown outputs
produce none. -/
def iBlockOf : IOutput → Option LCBlock
  | .text t => some { type := "text", text := some (t.getD "") }
  | .image mt d => some
    { type := "image_url",
      image_url := some (.obj
        ("data:" ++ mt.getD "undefined" ++ ";base64," ++ d.getD "undefined")) }
  | .thought _ summary =>
    match summary with
    | some s => if s.length > 0 then
        some { type := "reasoning", reasoning := some (summaryReasoningText s) }
      else none
    | none => none
  | _ => none

/-- Block list of an interactions response's outputs. -/
def iBlocks (outputs : List IOutput) : List LCBlock :=
  outputs.filterMap iBlockOf

/-- Tool calls of an interactions response's outputs (interaction-utils.ts
lines 260-266): the server-provided fields pass through unchanged; in
particular a missing id stays missing. -/
def iToolCalls (outputs : List IOutput) : List ToolCall :=
  outputs.filterMap
    (fun o =>
      match o with
      | .functionCall i n a => some { id := i, name := n, args := a }
      | _ => none)

/-- Last truthy thought signature over the outputs (interaction-utils.ts
lines 268-271). -/
def iSignature (outputs : List IOutput) : Option String :=
  outputs.foldl
    (fun acc o =>
      match o with
      | .thought (some s) _ => if s = "" then acc else some s
      | _ => acc) none

/-- Last code-execution-result output (interaction-utils.ts line 281). -/
def iCodeExecution (outputs : List IOutput) : Option String :=
  outputs.foldl
    (fun acc o =>
      match o with
      | .codeExecutionResult info => some info
      | _ => acc) none

/-- Response metadata assembled by the interactions decoder. -/
structure IMeta where
  interaction_id : Option String := none
  finish_reason : Option String := none
  model : Option String := none
  thought_signature : Option String := none
  code_execution_result : Option String := none
deriving Repr, DecidableEq

/-- The AI message produced by the interactions decoder. -/
structure AIMessageI where
  content : MContent
  tool_calls : List ToolCall := []
  meta : IMeta
  usage : Option UsageMetadata := none
deriving Repr, DecidableEq

/-- An interactions-protocol chat generation. -/
structure ChatGenerationI where
  text : String
  message : AIMessageI
  finish_reason : Option String := none
deriving Repr, DecidableEq

/-- JavaScript `length` of a LangChain content value (string length for
strings, element count for block arrays). -/
def mcLength : MContent → Nat
  | .str s => s.length
  | .blocks bs => bs.length

/-- Body of `convertInteractionToChatGeneration` (interaction-utils.ts
lines 227-312), producing the single generation of the returned list. -/
def decodeInteraction (response : Interaction)
    (usageMetadata : Option UsageMetadata) : ChatGenerationI :=
  let outputs := response.outputs.getD []
  let usage : Option UsageMetadata :=
    match usageMetadata with
    | some u => some u
    | none =>
      match response.usage with
      | some u => some
        { input_tokens := u.total_input_tokens.getD 0,
          output_tokens := u.total_output_tokens.getD 0,
          total_tokens := u.total_tokens.getD 0 }
      | none => none
  let textContent := iText outputs
  let contentBlocks := iBlocks outputs
  let isOnlyText := contentBlocks.all (fun b => b.type = "text")
  let finalContent : MContent :=
    if isOnlyText ∧ textContent ≠ "" then .str textContent
    else .blocks contentBlocks
  let content : MContent :=
    if mcLength finalContent > 0 then finalContent else .str textContent
  { text := textContent,
    message :=
      { content := content,
        tool_calls := iToolCalls outputs,
        meta :=
          { interaction_id := response.id,
            finish_reason := response.status,
            model := response.model,
            thought_signature := iSignature outputs,
            code_execution_result := iCodeExecution outputs },
        usage := usage },
    finish_reason := response.status }

/-- Embedding of `convertInteractionToChatGeneration`
(interaction-utils.ts lines 223-313).  Note that this decoder is total:
an interaction without outputs produces a generation carrying an empty
message instead of failing. -/
def convertInteractionToChatGeneration (response : Interaction)
    (usageMetadata : Option UsageMetadata) : List ChatGenerationI :=
  [decodeInteraction response usageMetadata]

/-- A LangChain tool-call chunk produced while streaming. -/
structure ToolCallChunk where
  name : String
  args : Option String := none
  id : String
  index : Nat
deriving Repr, DecidableEq

/-- Response metadata carried by a streamed message chunk. -/
structure ChunkMeta where
  thoughtSignature : Option String := none
deriving Repr, DecidableEq

/-- A streamed LangChain AI message chunk. -/
structure AIMessageChunk where
  content : MContent
  tool_call_chunks : List ToolCallChunk := []
  response_metadata : ChunkMeta := {}
  usage_metadata : Option UsageMetadata := none
deriving Repr, DecidableEq

/-- Embedding of `convertFunctionCallToToolCallChunk` (message-outputs.ts
lines 22-30); `freshId` is the `uuidv4()` value drawn when the server
omitted the id. -/
def convertFunctionCallToToolCallChunk (freshId : String) (fc : FunctionCall)
    (index : Nat) : ToolCallChunk :=
  { name := fc.name.getD "", args := fc.args, id := fc.id.getD freshId,
    index := index }

/-- Embedding of `convertPartToChunk` (message-outputs.ts lines 35-80):
thought text becomes a reasoning block pinned to merge index 0, plain
text becomes string content, a function call becomes a tool-call chunk,
and a signature-only part carries only metadata. -/
def convertPartToChunk (freshId : String) (p : Part) (index : Nat) :
    AIMessageChunk :=
  let meta : ChunkMeta :=
    { thoughtSignature :=
        match p.thoughtSignature with
        | some s => if s = "" then none else some s
        | none => none }
  match p.text with
  | some t =>
    if p.thought then
      { content :=
          .blocks [{ type := "reasoning", reasoning := some t, index := some 0 }],
        response_metadata := meta }
    else { content := .str t, response_metadata := meta }
  | none =>
    match p.functionCall with
    | some fc =>
      { content := .str "",
        tool_call_chunks := [convertFunctionCallToToolCallChunk freshId fc index],
        response_metadata := meta }
    | none => { content := .str "", response_metadata := meta }

/-- Modelled from the spec: field-wise merge of two content blocks that
share a merge index, as performed by the external `@langchain/core`
chunk concatenation (string fields concatenate; the open block keeps its
kind and index).  The concatenation itself is not part of this
repository; §4.4 of the spec describes it. -/
def mergeBlocks (x y : LCBlock) : LCBlock :=
  { type := x.type,
    text := mergeOptStr x.text y.text,
    reasoning := mergeOptStr x.reasoning y.reasoning,
    image_url := match x.image_url with | some u => some u | none => y.image_url,
    index := x.index }
where
  mergeOptStr : Option String → Option String → Option String
    | some a, some b => some (a ++ b)
    | some a, none => some a
    | none, some b => some b
    | none, none => none

/-- Modelled from the spec: insertion of one incoming block into an
accumulated block list — an indexed block merges into the block already
holding that index, anything else appends (spec §4.4: blocks of the same
kind merge through their positional index; a kind switch starts a new
block). -/
def mergeBlockInto (bs : List LCBlock) (b : LCBlock) : List LCBlock :=
  match b.index with
  | some i =>
    if bs.any (fun x => x.index = some i) then
      bs.map (fun x => if x.index = some i then mergeBlocks x b else x)
    else bs ++ [b]
  | none => bs ++ [b]

/-- Modelled from the spec: concatenation of two LangChain message
contents (spec §4.4) — strings concatenate, a nonempty string meeting a
block list is promoted to a text block, and block lists merge
index-aware. -/
def mergeContent : MContent → MContent → MContent
  | .str a, .str b => .str (a ++ b)
  | .str a, .blocks bs =>
    if a = "" then .blocks bs else .blocks ({ type := "text", text := some a } :: bs)
  | .blocks as, .str b =>
    if b = "" then .blocks as
    else .blocks (as ++ [{ type := "text", text := some b }])
  | .blocks as, .blocks bs => .blocks (bs.foldl mergeBlockInto as)

/-- Modelled from the spec: concatenation of two streamed message chunks
(spec §4.4) — contents merge as above, tool-call chunks accumulate with
same-index argument fragments appending, a later signature update
overwrites the recorded one, and usage counters aggregate. -/
def concatChunks (a b : AIMessageChunk) : AIMessageChunk :=
  { content := mergeContent a.content b.content,
    tool_call_chunks :=
      b.tool_call_chunks.foldl
        (fun acc c =>
          if acc.any (fun x => x.index = c.index) then
            acc.map
              (fun x =>
                if x.index = c.index then
                  { x with args :=
                      match x.args, c.args with
                      | some xa, some ca => some (xa ++ ca)
                      | some xa, none => some xa
                      | none, o => o }
                else x)
          else acc ++ [c])
        a.tool_call_chunks,
    response_metadata :=
      { thoughtSignature :=
          match b.response_metadata.thoughtSignature with
          | some s => some s
          | none => a.response_metadata.thoughtSignature },
    usage_metadata :=
      match a.usage_metadata, b.usage_metadata with
      | some ua, some ub => some
        { input_tokens := ua.input_tokens + ub.input_tokens,
          output_tokens := ua.output_tokens + ub.output_tokens,
          total_tokens := ua.total_tokens + ub.total_tokens }
      | some ua, none => some ua
      | none, o => o }

/-- Flat text the stream converter derives from a chunk's content
(message-outputs.ts lines 118-127): string content passes through, block
content keeps only the text blocks. -/
def chunkTextOf : MContent → String
  | .str s => s
  | .blocks bs =>
    strJoin
      ((bs.filter (fun b => b.type = "text" && b.text.isSome)).map
        (fun b => b.text.getD ""))

/-- One step of the part `reduce` of message-outputs.ts lines 103-106:
convert the part at its position and concatenate onto the accumulator.
`fresh pi.1` is the potential `uuidv4()` draw of the position. -/
def partStep (fresh : Nat → String) (acc : Option AIMessageChunk)
    (pi : Nat × Part) : Option AIMessageChunk :=
  let next := convertPartToChunk (fresh pi.1) pi.2 pi.1
  match acc with
  | some a => some (concatChunks a next)
  | none => some next

/-- The `reduce` of message-outputs.ts lines 103-106; an empty part list
yields nothing. -/
def reduceParts (fresh : Nat → String) (ps : List Part) :
    Option AIMessageChunk :=
  (ps.enum).foldl (partStep fresh) none

/-- A streamed chat generation chunk. -/
structure ChatGenerationChunk where
  message : AIMessageChunk
  text : String
deriving Repr, DecidableEq

/-- Candidate branch of the stream converter (message-outputs.ts lines
103-132): reduce the parts, reattach usage, and derive the flat text
from the accumulated content. -/
def streamChunkOfCandidate (fresh : Nat → String) (response : GResponse)
    (candidate : Candidate) : Option ChatGenerationChunk :=
  let chunk :=
    match candidate.content with
    | none => none
    | some cc =>
      match cc.parts with
      | none => none
      | some ps => reduceParts fresh ps
  match chunk with
  | none => none
  | some c =>
    let c :=
      match response.usageMetadata with
      | some u => { c with usage_metadata := extractUsageMetadata (some u) }
      | none => c
    some ⟨c, chunkTextOf c.content⟩

/-- Embedding of `convertGoogleStreamChunkToLangChainChunk`
(message-outputs.ts lines 85-133). -/
def convertGoogleStreamChunkToLangChainChunk (fresh : Nat → String)
    (response : GResponse) : Option ChatGenerationChunk :=
  match (response.candidates.getD []).head? with
  | none =>
    match response.usageMetadata with
    | some u => some
      ⟨{ content := .str "",
         usage_metadata := extractUsageMetadata (some u) }, ""⟩
    | none => none
  | some candidate => streamChunkOfCandidate fresh response candidate

/-- Modelled from the spec: concatenation of two chat generation chunks
(spec §4.4) — messages concatenate as chunks and flat texts append. -/
def concatGenerationChunks (a b : ChatGenerationChunk) : ChatGenerationChunk :=
  ⟨concatChunks a.message b.message, a.text ++ b.text⟩

/-- One step of the stream accumulation loop of `_generate`
(chat-models.ts lines 188-195): convert the delta, skip it if null, and
otherwise concatenate onto the running chunk. -/
def streamFoldStep (fresh : Nat → Nat → String)
    (acc : Option ChatGenerationChunk) (di : Nat × GResponse) :
    Option ChatGenerationChunk :=
  match convertGoogleStreamChunkToLangChainChunk (fresh di.1) di.2 with
  | none => acc
  | some c =>
    match acc with
    | none => some c
    | some a => some (concatGenerationChunks a c)

/-- The accumulation loop of `_generate` (chat-models.ts lines 188-195).
`fresh d` is the identifier supply of the `d`-th delta. -/
def foldStream (fresh : Nat → Nat → String) (deltas : List GResponse) :
    Option ChatGenerationChunk :=
  (deltas.enum).foldl (streamFoldStep fresh) none

/-- Embedding of `shouldUseInteractionsApi` (chat-models.ts lines
630-632): the double negation makes the empty-string interaction id
falsy. -/
def shouldUseInteractionsApi (useExperimentalInteractionsApi : Bool)
    (previousInteractionId : Option String) : Bool :=
  useExperimentalInteractionsApi ||
    (match previousInteractionId with
     | some s => s != ""
     | none => false)

/-- Plain (non-thought) text a part contributes to a stream delta's flat
text; empty for reasoning parts, function calls and bare parts. -/
def partPlain (p : Part) : String :=
  match p.text with
  | some t => if p.thought then "" else t
  | none => ""

/-- Reasoning text a part contributes; empty for non-thought parts. -/
def partReason (p : Part) : String :=
  match p.text with
  | some t => if p.thought then t else ""
  | none => ""

/-- Reasoning text carried by one block. -/
def blockReason (b : LCBlock) : String := b.reasoning.getD ""

/-- Reasoning text carried by a LangChain content value, in block
order. -/
def contentReason : MContent → String
  | .str _ => ""
  | .blocks bs => strJoin (bs.map blockReason)

/-- Shape of a block reachable while folding standard stream deltas:
either the open reasoning block (pinned at merge index 0, with no text
payload) or an unindexed plain text block. -/
def GoodBlock (b : LCBlock) : Prop :=
  (b.index = some 0 ∧ b.type = "reasoning" ∧ b.text = none) ∨
  (b.index = none ∧ b.type = "text" ∧ b.reasoning = none ∧ b.text.isSome)

/-- Shape invariant of the block lists reachable while folding standard
stream deltas: every block is good and at most one block carries an
index. -/
def GoodBlocks (bs : List LCBlock) : Prop :=
  (∀ b ∈ bs, GoodBlock b) ∧ bs.countP (fun b => b.index.isSome) ≤ 1

/-- Plain text carried by one block as the stream converter's text
filter sees it. -/
def blockText (b : LCBlock) : String :=
  if b.type = "text" && b.text.isSome then b.text.getD "" else ""

/-- Truthy thought signature of a part (`if (part.thoughtSignature)`). -/
def truthySig (p : Part) : Option String :=
  match p.thoughtSignature with
  | some s => if s = "" then none else some s
  | none => none

/-- Last truthy signature over a part list starting from a previously
recorded value. -/
def lastSigFrom (init : Option String) (ps : List Part) : Option String :=
  ps.foldl
    (fun acc p =>
      match truthySig p with
      | some s => some s
      | none => acc) init

/-- Shape invariant of reachable stream-chunk contents. -/
def GoodContent : MContent → Prop
  | .str _ => True
  | .blocks bs => GoodBlocks bs

/-- The candidate parts a standard-protocol response carries (empty when
any of the optional layers is missing). -/
def partsOfResponse (response : GResponse) : List Part :=
  ((((response.candidates.getD []).head?).bind Candidate.content).bind
    CandContent.parts).getD []

/-- A standard-protocol response (or stream delta) carrying exactly the
given parts in its single candidate. -/
def mkDelta (ps : List Part) : GResponse :=
  { candidates := some [{ content := some { parts := some ps } }] }

/-- The identifier rule the claim states for decoded function calls: the
server-provided id when present, otherwise the next freshly generated
identifier. -/
def serverOrFreshIds (fresh : Nat → String) :
    List (Option String) → Nat → List String
  | [], _ => []
  | some i :: rest, k => i :: serverOrFreshIds fresh rest k
  | none :: rest, k => fresh k :: serverOrFreshIds fresh rest (k + 1)

/-- No two adjacent strings are equal. -/
def adjacentDistinct : List String → Bool
  | [] => true
  | [_] => true
  | a :: b :: rest => a != b && adjacentDistinct (b :: rest)

/-- No two adjacent wire content entries share a role. -/
def noAdjacentSameRole (cs : List Content) : Bool :=
  adjacentDistinct (cs.map Content.role)

theorem startsWith_data_ne_empty (url : String)
    (h : strStartsWith url "data:" = true) : url ≠ "" := by
  intro he
  subst he
  exact absurd h (by decide)

/-- C9, counterexample: an empty-string `previousInteractionId` is
present in the options yet does not route the call through the
interactions protocol, because the source tests JavaScript truthiness
rather than presence. -/
theorem c9_counterexample :
    shouldUseInteractionsApi false (some "") = false ∧
    (some "" : Option String).isSome = true :=
  ⟨rfl, rfl⟩

/-- C9, amended: the request is routed through the interactions protocol
exactly when the constructor flag is set or the call options carry a
nonempty `previousInteractionId`; routing depends on nothing else. -/
theorem c9_routing_rule (flag : Bool) (prev : Option String) :
    shouldUseInteractionsApi flag prev = true ↔
      (flag = true ∨ ∃ s, prev = some s ∧ s ≠ "") := by
  constructor
  · intro h
    cases flag with
    | true => exact Or.inl rfl
    | false =>
      cases prev with
      | none => exact absurd h (by simp [shouldUseInteractionsApi])
      | some s =>
        refine Or.inr ⟨s, rfl, ?_⟩
        simpa [shouldUseInteractionsApi] using h
  · intro h
    rcases h with hf | ⟨s, hp, hs⟩
    · subst hf
      simp [shouldUseInteractionsApi]
    · subst hp
      cases flag <;> simp [shouldUseInteractionsApi, hs]

/-- C8: an image block whose url starts with `data:` but fails the
base64 data-url regex makes both the standard and the interactions
content codec fail synchronously with the malformed-data-url error; no
partial part list is returned. -/
theorem c8_malformed_data_url (url : String)
    (hpre : strStartsWith url "data:" = true)
    (hmatch : matchDataUrlTail (url.toList.drop 5) = none) :
    convertContentToParts
        (.blocks [{ type := "image_url", image_url := some (.str url) }]) =
      .error .invalidBase64DataUrl ∧
    formatContent
        (.blocks [{ type := "image_url", image_url := some (.str url) }]) =
      .error .invalidBase64DataUrl := by
  have hne : url ≠ "" := startsWith_data_ne_empty url hpre
  have hb : convertBlockToPart { type := "image_url", image_url := some (.str url) } =
      .error .invalidBase64DataUrl := by
    unfold convertBlockToPart
    rw [if_neg (by simp), if_neg (by simp),
        if_pos ⟨rfl, by simp [imageUrlTruthy, hne]⟩]
    simp only [imageUrlString]
    rw [if_pos hpre]
    unfold parseBase64Data
    rw [if_pos hpre, hmatch]
  have hi : formatItem { type := "image_url", image_url := some (.str url) } =
      .error .invalidBase64DataUrl := by
    have h0 : formatItem { type := "image_url", image_url := some (.str url) } =
        formatItem.formatImageItem url := by
      unfold formatItem
      rw [if_neg (by simp), if_pos rfl]
    rw [h0]
    unfold formatItem.formatImageItem
    rw [if_pos hpre, hmatch]
  constructor
  · simp [convertContentToParts, List.mapM, List.mapM.loop, hb]
  · simp [formatContent, List.mapM, List.mapM.loop, hi]

/-- C8, witness at the spec's own example `"data:nope"`. -/
theorem c8_witness :
    convertContentToParts
        (.blocks [{ type := "image_url", image_url := some (.str "data:nope") }]) =
      .error .invalidBase64DataUrl ∧
    formatContent
        (.blocks [{ type := "image_url", image_url := some (.str "data:nope") }]) =
      .error .invalidBase64DataUrl :=
  c8_malformed_data_url "data:nope" (by decide) (by decide)

/-- C4, counterexample: on an interaction with no outputs at all the
interactions decoder does not fail — it returns a best-effort generation
carrying an empty message, contradicting the claim that both decoders
raise `EmptyResponseError`. -/
theorem c4_counterexample :
    convertInteractionToChatGeneration { outputs := none } none =
      [{ text := "",
         message := { content := .str "", tool_calls := [], meta := {},
                      usage := none },
         finish_reason := none }] := rfl

/-- C4, amended: the standard full-response decoder fails synchronously
with the empty-response error when the response carries no candidate, or
a candidate without content; the interactions decoder instead returns a
single generation holding an empty message (empty text, empty string
content, no tool calls). -/
theorem c4_amended :
    (∀ (fresh : Nat → String) (response : GResponse),
      (response.candidates.getD []).head? = none →
      convertGoogleResponseToChatGeneration fresh response =
        .error .emptyResponse) ∧
    (∀ (fresh : Nat → String) (response : GResponse) (cand : Candidate),
      (response.candidates.getD []).head? = some cand → cand.content = none →
      convertGoogleResponseToChatGeneration fresh response =
        .error .emptyResponse) ∧
    (∀ (i : Interaction) (um : Option UsageMetadata),
      i.outputs.getD [] = [] →
      ∃ g, convertInteractionToChatGeneration i um = [g] ∧
        g.text = "" ∧ g.message.content = .str "" ∧
        g.message.tool_calls = []) := by
  refine ⟨fun fresh response h => ?_, fun fresh response cand h hc => ?_,
    fun i um h => ?_⟩
  · unfold convertGoogleResponseToChatGeneration
    rw [h]
  · unfold convertGoogleResponseToChatGeneration
    rw [h]
    simp [hc]
  · refine ⟨decodeInteraction i um, rfl, ?_, ?_, ?_⟩
    · simp [decodeInteraction, h, iText, strJoin]
    · simp [decodeInteraction, h, iText, iBlocks, mcLength, strJoin]
    · simp [decodeInteraction, h, iToolCalls]

/-- C4, witness: concrete empty responses for all three conjuncts. -/
theorem c4_witness :
    (convertGoogleResponseToChatGeneration (fun _ => "u")
        { candidates := some [] } = .error .emptyResponse) ∧
    (convertGoogleResponseToChatGeneration (fun _ => "u")
        { candidates := some [{ content := none }] } = .error .emptyResponse) ∧
    (∃ g, convertInteractionToChatGeneration { outputs := some [] } none = [g] ∧
      g.text = "" ∧ g.message.content = .str "" ∧ g.message.tool_calls = []) :=
  ⟨c4_amended.1 _ _ rfl, c4_amended.2.1 _ _ _ rfl rfl,
   c4_amended.2.2 _ none rfl⟩

/-- C5, counterexample: the interactions content codec silently drops a
function-call block (a shape that is not text, reasoning or image)
instead of failing with an unsupported-block error. -/
theorem c5_counterexample :
    formatContent (.blocks [{ type := "function_call" }]) = .ok [] := rfl

/-- C5, amended: the standard content codec rejects every block whose
type is not text, reasoning or image_url with an unsupported-block error
naming the offending type; the interactions codec instead silently drops
every block whose type is not text or image_url (including reasoning and
function-call blocks), returning no item and no error. -/
theorem c5_amended :
    (∀ b : LCBlock, b.type ≠ "text" → b.type ≠ "reasoning" →
      b.type ≠ "image_url" →
      convertContentToParts (.blocks [b]) =
        .error (.unsupportedBlock b.type)) ∧
    (∀ b : LCBlock, b.type ≠ "text" → b.type ≠ "image_url" →
      formatContent (.blocks [b]) = .ok []) := by
  constructor
  · intro b h1 h2 h3
    have hb : convertBlockToPart b = .error (.unsupportedBlock b.type) := by
      unfold convertBlockToPart
      rw [if_neg (fun hc => h1 hc.1), if_neg (fun hc => h2 hc.1),
          if_neg (fun hc => h3 hc.1)]
    simp [convertContentToParts, List.mapM, List.mapM.loop, hb]
  · intro b h1 h2
    have hb : formatItem b = .ok none := by
      unfold formatItem
      rw [if_neg h1, if_neg h2]
    simp [formatContent, List.mapM, List.mapM.loop, hb]

/-- C5, witness: a block of the unknown type `"foo"` errors in the
standard codec and is dropped by the interactions codec. -/
theorem c5_witness :
    (convertContentToParts (.blocks [{ type := "foo" }]) =
      .error (.unsupportedBlock "foo")) ∧
    formatContent (.blocks [{ type := "foo" }]) = .ok [] :=
  ⟨c5_amended.1 { type := "foo" } (by decide) (by decide) (by decide),
   c5_amended.2 { type := "foo" } (by decide) (by decide)⟩

theorem attachSignature_last (sig : String) (ps : List Part) :
    ((attachSignature sig ps).getLast?).map Part.thoughtSignature =
      some (some sig) := by
  unfold attachSignature
  cases hl : ps.getLast? with
  | none => rfl
  | some last =>
    rw [List.getLast?_concat]
    rfl

theorem encodeMessageParts_ai_sig (c : MContent) (tcs : List ToolCall)
    (meta : MsgMeta) (s : String) (hs : meta.thoughtSignature = some s) :
    encodeMessageParts (.ai c tcs meta) =
      (convertContentToParts c).map (fun base =>
        attachSignature s (base ++ tcs.map convertToolCallToPart)) := by
  cases hcc : convertContentToParts c with
  | error e =>
    unfold encodeMessageParts
    simp only [Msg.content]
    rw [hcc]
    rfl
  | ok base =>
    unfold encodeMessageParts
    simp only [Msg.content]
    rw [hcc, hs]
    rfl

theorem convertTurn_ai (c : MContent) (tcs : List ToolCall) (meta : MsgMeta) :
    convertMessageToGoogleTurn (.ai c tcs meta) =
      (match c with
        | .str s => Except.ok (if s ≠ "" then [Item.text s] else [])
        | .blocks bs => formatContent (.blocks bs)).map
        (fun contentItems =>
          some ⟨"model",
            (match meta.thought_signature with
             | some s => [Item.thought s]
             | none => []) ++ contentItems ++
            tcs.map (fun (tc : ToolCall) =>
              Item.functionCall (tc.id.getD "") tc.name tc.args)⟩) := by
  cases c with
  | str s => rfl
  | blocks bs =>
    cases hfc : formatContent (.blocks bs) with
    | error e =>
      simp only [convertMessageToGoogleTurn]
      rw [hfc]
      rfl
    | ok items =>
      simp only [convertMessageToGoogleTurn]
      rw [hfc]
      rfl

/-- C1, counterexample: the interactions encoder emits the continuation
signature of an AI message as a standalone thought item placed first in
the turn's content, so the last item of the turn carries no signature —
contradicting the claim that the signature is attached to the last wire
item in both encoders. -/
theorem c1_counterexample :
    convertMessageToGoogleTurn
        (.ai (.str "hi") [] { thought_signature := some "S" }) =
      .ok (some ⟨"model", [.thought "S", .text "hi"]⟩) ∧
    itemSignature (.text "hi") = none :=
  ⟨rfl, rfl⟩

/-- C1, amended: the standard encoder attaches the continuation
signature of an AI message to the last wire part it produced for that
message, appending a zero-text carrier part when the message encoded to
zero parts; the interactions encoder instead emits the signature as a
standalone thought item placed first in the turn's content, before any
content or tool-call items. -/
theorem c1_amended :
    (∀ (c : MContent) (tcs : List ToolCall) (meta : MsgMeta) (s : String)
        (ps : List Part),
      meta.thoughtSignature = some s →
      encodeMessageParts (.ai c tcs meta) = .ok ps →
      ps.getLast?.map Part.thoughtSignature = some (some s)) ∧
    (∀ (c : MContent) (tcs : List ToolCall) (meta : MsgMeta) (s : String)
        (t : Turn),
      meta.thought_signature = some s →
      convertMessageToGoogleTurn (.ai c tcs meta) = .ok (some t) →
      t.content.head? = some (.thought s)) := by
  constructor
  · intro c tcs meta s ps hs henc
    rw [encodeMessageParts_ai_sig c tcs meta s hs] at henc
    cases hcc : convertContentToParts c with
    | error e => rw [hcc] at henc; cases henc
    | ok base =>
      rw [hcc] at henc
      simp only [Except.map] at henc
      injection henc with h1
      subst h1
      exact attachSignature_last s _
  · intro c tcs meta s t hs henc
    rw [convertTurn_ai, hs] at henc
    cases hx : (match c with
      | MContent.str s => Except.ok (if s ≠ "" then [Item.text s] else [])
      | MContent.blocks bs => formatContent (.blocks bs)) with
    | error e => rw [hx] at henc; cases henc
    | ok items =>
      rw [hx] at henc
      simp only [Except.map] at henc
      injection henc with h1
      injection h1 with h2
      subst h2
      rfl

/-- C1, witness: a content-free AI message gains a zero-text carrier
part bearing the signature on the standard path, and a text-bearing AI
message leads with the thought item on the interactions path. -/
theorem c1_witness :
    (([({ text := some "", thoughtSignature := some "SIG" } : Part)].getLast?).map
        Part.thoughtSignature = some (some "SIG")) ∧
    ((⟨"model", [Item.thought "S", Item.text "hi"]⟩ : Turn).content.head? =
      some (.thought "S")) :=
  ⟨c1_amended.1 (.str "") [] { thoughtSignature := some "SIG" } "SIG" _ rfl rfl,
   c1_amended.2 (.str "hi") [] { thought_signature := some "S" } "S" _ rfl rfl⟩

theorem stdToolCallsAux_ids (fresh : Nat → String) :
    ∀ (parts : List Part) (k : Nat),
      (stdToolCallsAux fresh parts k).map ToolCall.id =
        (serverOrFreshIds fresh
          (parts.filterMap (fun p => p.functionCall.map FunctionCall.id)) k).map
          some := by
  intro parts
  induction parts with
  | nil => intro k; rfl
  | cons p rest ih =>
    intro k
    cases hfc : p.functionCall with
    | none => simp [stdToolCallsAux, hfc, ih]
    | some fc =>
      cases hid : fc.id with
      | none => simp [stdToolCallsAux, hfc, hid, serverOrFreshIds, ih]
      | some i => simp [stdToolCallsAux, hfc, hid, serverOrFreshIds, ih]

/-- C6, counterexample: the interactions decoder passes a missing
server id through unchanged — the decoded function-call block carries no
identifier at all, contradicting the claim that every decoded
function-call block carries one. -/
theorem c6_counterexample :
    (convertInteractionToChatGeneration
        { outputs := some [.functionCall none (some "f") none] } none).head?.map
      (fun g => g.message.tool_calls) =
      some [{ name := some "f", args := none, id := none }] ∧
    ({ name := some "f", args := none, id := none } : ToolCall).id = none :=
  ⟨rfl, rfl⟩

/-- C6, amended: in the standard stream-chunk decoder and the standard
full-response decoder every decoded function call carries an identifier
(the server-provided id when present, otherwise the next freshly
generated one); the interactions decoder instead passes the
server-provided id through unchanged and generates nothing when it is
absent. -/
theorem c6_amended :
    (∀ (freshId : String) (p : Part) (idx : Nat) (fc : FunctionCall),
      p.text = none → p.functionCall = some fc →
      (convertPartToChunk freshId p idx).tool_call_chunks =
        [{ name := fc.name.getD "", args := fc.args, id := fc.id.getD freshId,
           index := idx }]) ∧
    (∀ (fresh : Nat → String) (parts : List Part),
      (stdToolCalls fresh parts).map ToolCall.id =
        (serverOrFreshIds fresh
          (parts.filterMap (fun p => p.functionCall.map FunctionCall.id)) 0).map
          some) ∧
    (∀ outputs : List IOutput,
      (iToolCalls outputs).map ToolCall.id =
        outputs.filterMap
          (fun o =>
            match o with
            | .functionCall i _ _ => some i
            | _ => none)) := by
  refine ⟨fun freshId p idx fc hpt hfc => ?_, fun fresh parts => ?_,
    fun outputs => ?_⟩
  · unfold convertPartToChunk
    rw [hpt, hfc]
    rfl
  · exact stdToolCallsAux_ids fresh parts 0
  · induction outputs with
    | nil => rfl
    | cons o rest ih =>
      cases o <;> simp [iToolCalls, List.filterMap_cons] <;>
        simpa [iToolCalls] using ih

/-- C6, witness: concrete decodes on all three paths. -/
theorem c6_witness :
    ((convertPartToChunk "u" { functionCall := some { name := some "f" } } 0).tool_call_chunks =
      [{ name := "f", args := none, id := "u", index := 0 }]) ∧
    ((stdToolCalls (fun _ => "v")
        [{ functionCall := some { name := some "a", id := some "sid" } },
         { functionCall := some { name := some "b" } }]).map ToolCall.id =
      (serverOrFreshIds (fun _ => "v")
        ([({ functionCall := some { name := some "a", id := some "sid" } } : Part),
          { functionCall := some { name := some "b" } }].filterMap
          (fun p => p.functionCall.map FunctionCall.id)) 0).map some) ∧
    ((iToolCalls [.functionCall (some "x") (some "f") none]).map ToolCall.id =
      [IOutput.functionCall (some "x") (some "f") none].filterMap
        (fun o =>
          match o with
          | .functionCall i _ _ => some i
          | _ => none)) :=
  ⟨c6_amended.1 "u" { functionCall := some { name := some "f" } } 0
      { name := some "f" } rfl rfl,
   c6_amended.2.1 (fun _ => "v") _,
   c6_amended.2.2 _⟩

theorem adjacentDistinct_snoc (xs : List String) (r : String)
    (h : adjacentDistinct xs = true)
    (hl : ∀ x, xs.getLast? = some x → x ≠ r) :
    adjacentDistinct (xs ++ [r]) = true := by
  induction xs with
  | nil => rfl
  | cons a rest ih =>
    cases rest with
    | nil =>
      have har : a ≠ r := hl a rfl
      simp [adjacentDistinct, har]
    | cons b rest2 =>
      have h2 : ((a != b) && adjacentDistinct (b :: rest2)) = true := h
      obtain ⟨hab, hbd⟩ := Bool.and_eq_true_iff.mp h2
      have hl2 : ∀ x, (b :: rest2).getLast? = some x → x ≠ r := by
        intro x hx
        exact hl x (by rw [List.getLast?_cons_cons]; exact hx)
      have := ih hbd hl2
      show ((a != b) && adjacentDistinct ((b :: rest2) ++ [r])) = true
      exact Bool.and_eq_true_iff.mpr ⟨hab, this⟩

theorem appendContent_preserves (contents : List Content) (role : String)
    (ps : List Part) (h : noAdjacentSameRole contents = true) :
    noAdjacentSameRole (appendContent contents role ps) = true := by
  rcases List.eq_nil_or_concat contents with rfl | ⟨as, a, rfl⟩
  · rfl
  · rw [List.concat_eq_append] at h ⊢
    unfold appendContent
    rw [List.getLast?_concat]
    show noAdjacentSameRole
        (if a.role = role then
          (as ++ [a]).dropLast ++ [{ role := a.role, parts := a.parts ++ ps }]
        else (as ++ [a]) ++ [⟨role, ps⟩]) = true
    by_cases hr : a.role = role
    · rw [if_pos hr, List.dropLast_concat]
      have heq :
          noAdjacentSameRole (as ++ [{ a with parts := a.parts ++ ps }]) =
            noAdjacentSameRole (as ++ [a]) := by
        simp [noAdjacentSameRole, List.map_append]
      rw [heq]
      exact h
    · rw [if_neg hr]
      unfold noAdjacentSameRole
      rw [List.map_append]
      simp only [List.map_cons, List.map_nil]
      apply adjacentDistinct_snoc _ _ h
      intro x hx
      rw [List.map_append] at hx
      simp only [List.map_cons, List.map_nil] at hx
      rw [List.getLast?_concat] at hx
      injection hx with hx
      subst hx
      exact hr

theorem payloadFold_adjacent :
    ∀ (msgs : List Msg) (acc : List Content),
      noAdjacentSameRole acc = true →
      ∀ res,
        (msgs.foldlM (fun acc m => do
          let ps ← encodeMessageParts m
          pure (appendContent acc m.googleRole ps)) acc) = .ok res →
        noAdjacentSameRole res = true := by
  intro msgs
  induction msgs with
  | nil =>
    intro acc hacc res hres
    injection hres with hres
    subst hres
    exact hacc
  | cons m rest ih =>
    intro acc hacc res hres
    rw [List.foldlM_cons] at hres
    cases he : encodeMessageParts m with
    | error e =>
      rw [he] at hres
      cases hres
    | ok ps =>
      rw [he] at hres
      exact ih (appendContent acc m.googleRole ps)
        (appendContent_preserves acc m.googleRole ps hacc) res hres

theorem convertTurn_nonsystem_some (m : Msg) (hm : m.isSystem = false)
    (r : Option Turn) (h : convertMessageToGoogleTurn m = .ok r) :
    ∃ turn, r = some turn := by
  cases m with
  | system c => cases hm
  | human c =>
    cases hfc : formatContent c with
    | error e => rw [convertMessageToGoogleTurn, hfc] at h; cases h
    | ok items =>
      rw [convertMessageToGoogleTurn, hfc] at h
      injection h with h
      exact ⟨_, h.symm⟩
  | ai c tcs meta =>
    rw [convertTurn_ai] at h
    cases hx : (match c with
      | MContent.str s => Except.ok (if s ≠ "" then [Item.text s] else [])
      | MContent.blocks bs => formatContent (.blocks bs)) with
    | error e => rw [hx] at h; cases h
    | ok items =>
      rw [hx] at h
      injection h with h
      exact ⟨_, h.symm⟩
  | tool c nm tcid isErr =>
    injection h with h
    exact ⟨_, h.symm⟩
  | chat role c =>
    cases hfc : formatContent c with
    | error e => rw [convertMessageToGoogleTurn, hfc] at h; cases h
    | ok items =>
      rw [convertMessageToGoogleTurn, hfc] at h
      injection h with h
      exact ⟨_, h.symm⟩

theorem interactionStep_nonsystem (acc : InteractionPayload) (m : Msg)
    (hm : m.isSystem = false) :
    interactionStep acc m =
      (do
        let t ← convertMessageToGoogleTurn m
        match t with
        | some turn => pure { acc with input := acc.input ++ [turn] }
        | none => pure acc) := by
  cases m with
  | system c => cases hm
  | human c => rfl
  | ai c tcs meta => rfl
  | tool c nm tcid isErr => rfl
  | chat role c => rfl

theorem interactionsFold_length :
    ∀ (msgs : List Msg) (acc res : InteractionPayload),
      (msgs.foldlM interactionStep acc) = .ok res →
      res.input.length =
        acc.input.length + (msgs.filter (fun m => !m.isSystem)).length := by
  intro msgs
  induction msgs with
  | nil =>
    intro acc res hres
    injection hres with hres
    subst hres
    rfl
  | cons m rest ih =>
    intro acc res hres
    rw [List.foldlM_cons] at hres
    cases hsys : m.isSystem with
    | true =>
      cases m with
      | system c =>
        by_cases hc : systemText c = ""
        · rw [show interactionStep acc (.system c) =
              (if systemText c = "" then pure acc
               else pure { acc with system_instruction :=
                 match acc.system_instruction with
                 | some s => some (s ++ "\n" ++ systemText c)
                 | none => some (systemText c) }) from rfl,
            if_pos hc] at hres
          have := ih _ res hres
          simpa [Msg.isSystem, List.filter_cons] using this
        · rw [show interactionStep acc (.system c) =
              (if systemText c = "" then pure acc
               else pure { acc with system_instruction :=
                 match acc.system_instruction with
                 | some s => some (s ++ "\n" ++ systemText c)
                 | none => some (systemText c) }) from rfl,
            if_neg hc] at hres
          have := ih _ res hres
          simpa [Msg.isSystem, List.filter_cons] using this
      | human c => cases hsys
      | ai c tcs meta => cases hsys
      | tool c nm tcid isErr => cases hsys
      | chat role c => cases hsys
    | false =>
      rw [interactionStep_nonsystem acc m hsys] at hres
      cases ht : convertMessageToGoogleTurn m with
      | error e => rw [ht] at hres; cases hres
      | ok r =>
        obtain ⟨turn, rfl⟩ := convertTurn_nonsystem_some m hsys r ht
        rw [ht] at hres
        have := ih _ res hres
        simp only [List.length_append, List.length_cons, List.length_nil] at this
        simp [List.filter_cons, hsys, this]
        omega

/-- C3, counterexample: the interactions assembler emits one turn per
message and never merges adjacent same-role turns — two consecutive
human messages `"a"` then `"b"` yield two wire entries, not one entry
with two content items. -/
theorem c3_counterexample :
    convertMessagesToGoogleInteractionPayload
        [.human (.str "a"), .human (.str "b")] =
      .ok ⟨[⟨"user", [.text "a"]⟩, ⟨"user", [.text "b"]⟩], none⟩ ∧
    ([(⟨"user", [Item.text "a"]⟩ : Turn),
      ⟨"user", [Item.text "b"]⟩].length = 2) :=
  ⟨rfl, rfl⟩

/-- C3, amended: the standard assembler merges adjacent same-role
messages by content-list concatenation — two consecutive human messages
`"a"` then `"b"` yield a single wire entry with both parts in order, and
no two adjacent entries of any assembled payload ever share a role.  The
interactions assembler does not merge: it emits exactly one turn per
non-system message. -/
theorem c3_amended :
    (convertMessagesToGooglePayload [.human (.str "a"), .human (.str "b")] =
      .ok ⟨[⟨"user", [{ text := some "a" }, { text := some "b" }]⟩], none⟩) ∧
    (∀ (msgs : List Msg) (payload : GooglePayload),
      convertMessagesToGooglePayload msgs = .ok payload →
      noAdjacentSameRole payload.contents = true) ∧
    (∀ (msgs : List Msg) (payload : InteractionPayload),
      convertMessagesToGoogleInteractionPayload msgs = .ok payload →
      payload.input.length = (msgs.filter (fun m => !m.isSystem)).length) := by
  refine ⟨rfl, fun msgs payload h => ?_, fun msgs payload h => ?_⟩
  · cases hsm : (msgs.filter Msg.isSystem).mapM
        (fun m => convertContentToParts m.content) with
    | error e =>
      have he : convertMessagesToGooglePayload msgs = .error e := by
        unfold convertMessagesToGooglePayload
        rw [hsm]
        rfl
      rw [he] at h
      cases h
    | ok sysLists =>
      cases hfold : (msgs.filter (fun m => !m.isSystem)).foldlM
          (fun acc m => do
            let ps ← encodeMessageParts m
            pure (appendContent acc m.googleRole ps)) [] with
      | error e =>
        have he : convertMessagesToGooglePayload msgs = .error e := by
          unfold convertMessagesToGooglePayload
          rw [hsm, hfold]
          rfl
        rw [he] at h
        cases h
      | ok contents =>
        have he : convertMessagesToGooglePayload msgs =
            .ok ⟨contents,
              if sysLists.flatten.isEmpty then none
              else some ⟨"system", sysLists.flatten⟩⟩ := by
          unfold convertMessagesToGooglePayload
          rw [hsm, hfold]
          rfl
        rw [he] at h
        injection h with h
        subst h
        exact payloadFold_adjacent _ [] rfl contents hfold
  · have h0 := interactionsFold_length msgs ⟨[], none⟩ payload h
    simpa using h0

/-- C3, witness: concrete runs of both assemblers. -/
theorem c3_witness :
    (noAdjacentSameRole
      [(⟨"user", [{ text := some "a" }, { text := some "b" }]⟩ : Content)] =
      true) ∧
    (([(⟨"user", [Item.text "a"]⟩ : Turn), ⟨"user", [Item.text "b"]⟩] :
        List Turn).length =
      ([Msg.human (.str "a"), Msg.human (.str "b")].filter
        (fun m => !m.isSystem)).length) :=
  ⟨c3_amended.2.1 [.human (.str "a"), .human (.str "b")]
      ⟨[⟨"user", [{ text := some "a" }, { text := some "b" }]⟩], none⟩ rfl,
   c3_amended.2.2 [.human (.str "a"), .human (.str "b")]
      ⟨[⟨"user", [Item.text "a"]⟩, ⟨"user", [Item.text "b"]⟩], none⟩ rfl⟩

theorem string_length_pos_of_ne (s : String) (h : s ≠ "") : 0 < s.length := by
  cases s with
  | mk data =>
    cases data with
    | nil => exact absurd rfl h
    | cons c cs => simp [String.length]

theorem decode_ok_form (fresh : Nat → String) (response : GResponse)
    (cand : Candidate) (cc : CandContent)
    (h1 : (response.candidates.getD []).head? = some cand)
    (h2 : cand.content = some cc) :
    convertGoogleResponseToChatGeneration fresh response =
      .ok (decodeCandidate fresh response cand cc) := by
  unfold convertGoogleResponseToChatGeneration
  rw [h1]
  show (match cand.content with
    | none => Except.error ConvError.emptyResponse
    | some cc => Except.ok (decodeCandidate fresh response cand cc)) =
    Except.ok (decodeCandidate fresh response cand cc)
  rw [h2]

theorem decode_error_of_content_none (fresh : Nat → String)
    (response : GResponse) (cand : Candidate)
    (h1 : (response.candidates.getD []).head? = some cand)
    (h2 : cand.content = none) :
    convertGoogleResponseToChatGeneration fresh response =
      .error .emptyResponse := by
  unfold convertGoogleResponseToChatGeneration
  rw [h1]
  show (match cand.content with
    | none => Except.error ConvError.emptyResponse
    | some cc => Except.ok (decodeCandidate fresh response cand cc)) =
    Except.error ConvError.emptyResponse
  rw [h2]

theorem decode_ok_inv (fresh : Nat → String) (response : GResponse)
    (gen : ChatGenerationStd)
    (h : convertGoogleResponseToChatGeneration fresh response = .ok gen) :
    ∃ cand cc, (response.candidates.getD []).head? = some cand ∧
      cand.content = some cc ∧
      gen = decodeCandidate fresh response cand cc := by
  cases h1 : (response.candidates.getD []).head? with
  | none =>
    have he : convertGoogleResponseToChatGeneration fresh response =
        .error .emptyResponse := by
      unfold convertGoogleResponseToChatGeneration
      rw [h1]
    rw [he] at h
    cases h
  | some cand =>
    cases h2 : cand.content with
    | none =>
      have he := decode_error_of_content_none fresh response cand h1 h2
      rw [he] at h
      cases h
    | some cc =>
      have he := decode_ok_form fresh response cand cc h1 h2
      rw [he] at h
      injection h with h
      exact ⟨cand, cc, rfl, h2, h.symm⟩

theorem stdBlocks_reasoning_iff (ps : List Part) :
    ((stdBlocks ps).any (fun b => b.type = "reasoning") = true) ↔
      ps.filterMap thoughtTextOf ≠ [] := by
  induction ps with
  | nil => simp [stdBlocks]
  | cons p rest ih =>
    cases htt : truthyText p with
    | none =>
      have hb : stdBlockOf p = none := by simp [stdBlockOf, htt]
      have ht : thoughtTextOf p = none := by simp [thoughtTextOf, htt]
      simpa [stdBlocks, List.filterMap_cons, hb, ht] using ih
    | some t =>
      cases hth : p.thought with
      | true =>
        have hb : stdBlockOf p = some { type := "reasoning", reasoning := some t } := by
          simp [stdBlockOf, htt, hth]
        have ht : thoughtTextOf p = some t := by simp [thoughtTextOf, htt, hth]
        simp [stdBlocks, List.filterMap_cons, hb, ht]
      | false =>
        have hb : stdBlockOf p = some { type := "text", text := some t } := by
          simp [stdBlockOf, htt, hth]
        have ht : thoughtTextOf p = none := by simp [thoughtTextOf, htt, hth]
        simpa [stdBlocks, List.filterMap_cons, hb, ht] using ih

theorem decodeInteraction_content_iff (i : Interaction)
    (um : Option UsageMetadata) :
    (∃ s, (decodeInteraction i um).message.content = .str s) ↔
      (iBlocks (i.outputs.getD []) = [] ∨
       ((iBlocks (i.outputs.getD [])).all (fun b => b.type = "text") = true ∧
        iText (i.outputs.getD []) ≠ "")) := by
  cases hB : iBlocks (i.outputs.getD []) with
  | nil =>
    refine ⟨fun _ => Or.inl rfl, fun _ => ?_⟩
    by_cases ht : iText (i.outputs.getD []) = ""
    · exact ⟨iText (i.outputs.getD []),
        by simp [decodeInteraction, hB, ht, mcLength]⟩
    · refine ⟨iText (i.outputs.getD []), ?_⟩
      have hpos := string_length_pos_of_ne _ ht
      simp [decodeInteraction, hB, ht, mcLength, hpos]
  | cons b rest =>
    by_cases hOnly : ((b :: rest).all (fun x => x.type = "text")) = true
    · by_cases ht : iText (i.outputs.getD []) = ""
      · have hc : (decodeInteraction i um).message.content =
            .blocks (b :: rest) := by
          simp [decodeInteraction, hB, hOnly, ht, mcLength]
        constructor
        · rintro ⟨s, hs⟩
          rw [hc] at hs
          cases hs
        · rintro (habs | ⟨_, hne⟩)
          · cases habs
          · exact absurd ht hne
      · have hpos := string_length_pos_of_ne _ ht
        have hc : (decodeInteraction i um).message.content =
            .str (iText (i.outputs.getD [])) := by
          simp [decodeInteraction, hB, hOnly, ht, mcLength, hpos]
        exact ⟨fun _ => Or.inr ⟨hOnly, ht⟩, fun _ => ⟨_, hc⟩⟩
    · have hc : (decodeInteraction i um).message.content =
          .blocks (b :: rest) := by
        rw [Bool.not_eq_true] at hOnly
        simp [decodeInteraction, hB, hOnly, mcLength]
      constructor
      · rintro ⟨s, hs⟩
        rw [hc] at hs
        cases hs
      · rintro (habs | ⟨hall, _⟩)
        · cases habs
        · exact absurd hall hOnly

/-- C7, counterexample: an interactions response consisting of a single
generated image produces no reasoning block, yet the decoded message
content is the block sequence, not a plain string — refuting the claim
for the interactions decoder. -/
theorem c7_counterexample :
    (convertInteractionToChatGeneration
        { outputs := some [.image (some "image/png") (some "QUJD")] }
        none).head?.map (fun g => g.message.content) =
      some (.blocks [{ type := "image_url", image_url := some (.obj "data:image/png;base64,QUJD") }]) ∧
    (([{ type := "image_url", image_url := some (.obj "data:image/png;base64,QUJD") }] :
        List LCBlock).any (fun b => b.type = "reasoning") = false) :=
  ⟨rfl, by decide⟩

/-- C7, amended: the standard decoder's output content is a plain string
exactly when the response produced no reasoning blocks (equivalently,
when its `thoughts` metadata is empty), and is otherwise the full block
sequence, which then contains a reasoning block.  The interactions
decoder's content is a plain string exactly when every produced block is
a text block and the accumulated text is nonempty, or no block was
produced at all; an image block or an empty text forces the
block-sequence form even without reasoning. -/
theorem c7_amended :
    (∀ (fresh : Nat → String) (response : GResponse)
        (gen : ChatGenerationStd),
      convertGoogleResponseToChatGeneration fresh response = .ok gen →
      ((∃ s, gen.message.content = .str s) ↔
        gen.message.meta.thoughts = []) ∧
      (∀ bs, gen.message.content = .blocks bs →
        ∃ b ∈ bs, b.type = "reasoning")) ∧
    (∀ (i : Interaction) (um : Option UsageMetadata) (g : ChatGenerationI),
      convertInteractionToChatGeneration i um = [g] →
      ((∃ s, g.message.content = .str s) ↔
        (iBlocks (i.outputs.getD []) = [] ∨
         ((iBlocks (i.outputs.getD [])).all (fun b => b.type = "text") = true ∧
          iText (i.outputs.getD []) ≠ "")))) := by
  constructor
  · intro fresh response gen h
    obtain ⟨cand, cc, h1, h2, rfl⟩ := decode_ok_inv fresh response gen h
    constructor
    · by_cases hr : ((stdBlocks (cc.parts.getD [])).any
          (fun b => b.type = "reasoning")) = true
      · constructor
        · rintro ⟨s, hs⟩
          have hc : (decodeCandidate fresh response cand cc).message.content =
              .blocks (stdBlocks (cc.parts.getD [])) := by
            simp [decodeCandidate, hr]
          rw [hc] at hs
          cases hs
        · intro hth
          exact absurd hth ((stdBlocks_reasoning_iff _).mp hr)
      · constructor
        · intro _
          have hne := fun hne => hr ((stdBlocks_reasoning_iff _).mpr hne)
          exact not_not.mp hne
        · intro _
          rw [Bool.not_eq_true] at hr
          exact ⟨stdText (cc.parts.getD []), by simp [decodeCandidate, hr]⟩
    · intro bs hbs
      by_cases hr : ((stdBlocks (cc.parts.getD [])).any
          (fun b => b.type = "reasoning")) = true
      · have hc : (decodeCandidate fresh response cand cc).message.content =
            .blocks (stdBlocks (cc.parts.getD [])) := by
          simp [decodeCandidate, hr]
        rw [hc] at hbs
        injection hbs with hbs
        subst hbs
        obtain ⟨b, hb, hbr⟩ := List.any_eq_true.mp hr
        exact ⟨b, hb, of_decide_eq_true hbr⟩
      · rw [Bool.not_eq_true] at hr
        have hc : (decodeCandidate fresh response cand cc).message.content =
            .str (stdText (cc.parts.getD [])) := by
          simp [decodeCandidate, hr]
        rw [hc] at hbs
        cases hbs
  · intro i um g h
    injection h with h1 h2
    subst h1
    exact decodeInteraction_content_iff i um

/-- C7, witness: a plain-text response on both paths. -/
theorem c7_witness :
    (((∃ s, (decodeCandidate (fun _ => "u") (mkDelta [{ text := some "t" }])
          { content := some { parts := some [{ text := some "t" }] } }
          { parts := some [{ text := some "t" }] }).message.content = .str s) ↔
        (decodeCandidate (fun _ => "u") (mkDelta [{ text := some "t" }])
          { content := some { parts := some [{ text := some "t" }] } }
          { parts := some [{ text := some "t" }] }).message.meta.thoughts = []) ∧
      (∀ bs,
        (decodeCandidate (fun _ => "u") (mkDelta [{ text := some "t" }])
          { content := some { parts := some [{ text := some "t" }] } }
          { parts := some [{ text := some "t" }] }).message.content = .blocks bs →
        ∃ b ∈ bs, b.type = "reasoning")) ∧
    ((∃ s, (decodeInteraction { outputs := some [.text (some "hi")] }
        none).message.content = .str s) ↔
      (iBlocks (({ outputs := some [.text (some "hi")] } :
          Interaction).outputs.getD []) = [] ∨
       ((iBlocks (({ outputs := some [.text (some "hi")] } :
           Interaction).outputs.getD [])).all (fun b => b.type = "text") = true ∧
        iText (({ outputs := some [.text (some "hi")] } :
          Interaction).outputs.getD []) ≠ ""))) :=
  ⟨c7_amended.1 (fun _ => "u") (mkDelta [{ text := some "t" }]) _ rfl,
   c7_amended.2 { outputs := some [.text (some "hi")] } none _ rfl⟩

theorem strJoin_append (l1 l2 : List String) :
    strJoin (l1 ++ l2) = strJoin l1 ++ strJoin l2 := by
  induction l1 with
  | nil => simp [strJoin, String.empty_append]
  | cons s rest ih => simp [strJoin, ih, String.append_assoc]

theorem strJoin_eq_empty (l : List String) (h : ∀ s ∈ l, s = "") :
    strJoin l = "" := by
  induction l with
  | nil => rfl
  | cons s rest ih =>
    have hs := h s (List.mem_cons_self s rest)
    rw [strJoin, hs, String.empty_append]
    exact ih (fun t ht => h t (List.mem_cons_of_mem s ht))

theorem chunkTextOf_blocks (bs : List LCBlock) :
    chunkTextOf (.blocks bs) = strJoin (bs.map blockText) := by
  induction bs with
  | nil => rfl
  | cons b rest ih =>
    by_cases hb : (b.type = "text" && b.text.isSome) = true
    · simp only [chunkTextOf, List.filter_cons, hb, if_true, List.map_cons,
        strJoin] at ih ⊢
      rw [ih, blockText, if_pos hb]
    · simp only [chunkTextOf, List.filter_cons, hb, if_false, List.map_cons,
        strJoin, Bool.false_eq_true] at ih ⊢
      rw [ih, blockText, if_neg hb, String.empty_append]

theorem mergeOptStr_getD (x y : Option String) :
    (mergeBlocks.mergeOptStr x y).getD "" = x.getD "" ++ y.getD "" := by
  cases x <;> cases y <;>
    simp [mergeBlocks.mergeOptStr, String.append_empty, String.empty_append]

theorem mergeMap_measures (b : LCBlock) (_hbi : b.index = some 0)
    (_hbt : b.type = "reasoning") (hbx : b.text = none) :
    ∀ as : List LCBlock, (∀ x ∈ as, GoodBlock x) →
      as.countP (fun x => x.index.isSome) ≤ 1 →
      (as.any (fun x => x.index = some 0)) = true →
      (∀ x ∈ as.map (fun x => if x.index = some 0 then mergeBlocks x b else x),
        GoodBlock x) ∧
      ((as.map (fun x => if x.index = some 0 then mergeBlocks x b else x)).countP
        (fun x => x.index.isSome)) ≤ 1 ∧
      strJoin ((as.map
          (fun x => if x.index = some 0 then mergeBlocks x b else x)).map
          blockText) =
        strJoin (as.map blockText) ∧
      strJoin ((as.map
          (fun x => if x.index = some 0 then mergeBlocks x b else x)).map
          blockReason) =
        strJoin (as.map blockReason) ++ blockReason b := by
  intro as
  induction as with
  | nil =>
    intro _ _ hany
    simp at hany
  | cons x rest ih =>
    intro hpt hcount hany
    by_cases hx0 : x.index = some 0
    · have hxg := hpt x (List.mem_cons_self x rest)
      have hxL : x.type = "reasoning" ∧ x.text = none := by
        rcases hxg with ⟨-, ht, hx⟩ | ⟨hnone, -⟩
        · exact ⟨ht, hx⟩
        · rw [hx0] at hnone; cases hnone
      have hxs : x.index.isSome = true := by rw [hx0]; rfl
      have hrest0 : rest.countP (fun y => y.index.isSome) = 0 := by
        rw [List.countP_cons, hxs, if_pos rfl] at hcount
        omega
      have hrestnone : ∀ y ∈ rest, y.index = none := by
        intro y hy
        have hns := List.countP_eq_zero.mp hrest0 y hy
        cases hyi : y.index with
        | none => rfl
        | some v => rw [hyi] at hns; simp at hns
      have hmap : rest.map
          (fun y => if y.index = some 0 then mergeBlocks y b else y) = rest := by
        have hcg := List.map_congr_left (l := rest)
          (f := fun y => if y.index = some 0 then mergeBlocks y b else y)
          (g := fun y => y)
          (fun y hy => by
            show (if y.index = some 0 then mergeBlocks y b else y) = y
            rw [if_neg (by rw [hrestnone y hy]; simp)])
        rw [hcg, List.map_id']
      have hrestreason : ∀ y ∈ rest, y.reasoning = none := by
        intro y hy
        rcases hpt y (List.mem_cons_of_mem x hy) with ⟨hi, -, -⟩ | ⟨-, -, hr, -⟩
        · rw [hrestnone y hy] at hi; cases hi
        · exact hr
      have hrestRJ : strJoin (rest.map blockReason) = "" :=
        strJoin_eq_empty _ (by
          intro s hs
          obtain ⟨y, hy, rfl⟩ := List.mem_map.mp hs
          rw [blockReason, hrestreason y hy]
          rfl)
      simp only [List.map_cons, if_pos hx0, hmap]
      refine ⟨?_, ?_, ?_, ?_⟩
      · intro z hz
        rcases List.mem_cons.mp hz with rfl | hz
        · left
          refine ⟨?_, ?_, ?_⟩
          · show x.index = some 0; exact hx0
          · show x.type = "reasoning"; exact hxL.1
          · show mergeBlocks.mergeOptStr x.text b.text = none
            rw [hxL.2, hbx]; rfl
        · exact hpt z (List.mem_cons_of_mem x hz)
      · rw [List.countP_cons]
        have : (mergeBlocks x b).index.isSome = true := by
          show x.index.isSome = true; exact hxs
        rw [this]
        simp [hrest0]
      · simp only [strJoin]
        have h1 : blockText (mergeBlocks x b) = "" := by
          rw [blockText, if_neg]
          simp [mergeBlocks, hxL.1]
        have h2 : blockText x = "" := by
          rw [blockText, if_neg]
          simp [hxL.1]
        rw [h1, h2]
      · simp only [strJoin]
        have h1 : blockReason (mergeBlocks x b) =
            blockReason x ++ blockReason b := by
          show (mergeBlocks.mergeOptStr x.reasoning b.reasoning).getD "" = _
          exact mergeOptStr_getD x.reasoning b.reasoning
        rw [h1, hrestRJ]
        simp [String.append_empty]
    · have hxr : GoodBlock x := hpt x (List.mem_cons_self x rest)
      have hxTxt : x.index = none ∧ x.reasoning = none := by
        rcases hxr with ⟨hi, -, -⟩ | ⟨hi, -, hr, -⟩
        · exact absurd hi hx0
        · exact ⟨hi, hr⟩
      have hany' : rest.any (fun y => y.index = some 0) = true := by
        simp only [List.any_cons] at hany
        rcases Bool.or_eq_true_iff.mp hany with h | h
        · exact absurd (of_decide_eq_true h) hx0
        · exact h
      have hcount' : rest.countP (fun y => y.index.isSome) ≤ 1 := by
        rw [List.countP_cons] at hcount
        omega
      obtain ⟨ih1, ih2, ih3, ih4⟩ :=
        ih (fun y hy => hpt y (List.mem_cons_of_mem x hy)) hcount' hany'
      simp only [List.map_cons, if_neg hx0]
      refine ⟨?_, ?_, ?_, ?_⟩
      · intro z hz
        rcases List.mem_cons.mp hz with rfl | hz
        · exact hxr
        · exact ih1 z hz
      · rw [List.countP_cons]
        have : x.index.isSome = false := by rw [hxTxt.1]; rfl
        rw [this]
        simpa using ih2
      · simp only [strJoin]
        rw [ih3]
      · simp only [strJoin]
        have hx : blockReason x = "" := by rw [blockReason, hxTxt.2]; rfl
        rw [ih4, hx, String.empty_append, String.empty_append]

theorem mergeBlockInto_measures (as : List LCBlock) (b : LCBlock)
    (hgood : GoodBlocks as) (hb : GoodBlock b) :
    GoodBlocks (mergeBlockInto as b) ∧
    strJoin ((mergeBlockInto as b).map blockText) =
      strJoin (as.map blockText) ++ blockText b ∧
    strJoin ((mergeBlockInto as b).map blockReason) =
      strJoin (as.map blockReason) ++ blockReason b := by
  obtain ⟨hpt, hcount⟩ := hgood
  rcases hb with ⟨hbi, hbt, hbx⟩ | ⟨hbi, hbt, hbr, hbs⟩
  · have hdef : mergeBlockInto as b =
        (if as.any (fun x => x.index = some 0) then
          as.map (fun x => if x.index = some 0 then mergeBlocks x b else x)
        else as ++ [b]) := by
      unfold mergeBlockInto
      rw [hbi]
    by_cases hany : (as.any (fun x => x.index = some 0)) = true
    · rw [hdef, if_pos hany]
      obtain ⟨m1, m2, m3, m4⟩ :=
        mergeMap_measures b hbi hbt hbx as hpt hcount hany
      have hbtx : blockText b = "" := by
        rw [blockText, if_neg]
        simp [hbt]
      exact ⟨⟨m1, m2⟩, by rw [m3, hbtx, String.append_empty], m4⟩
    · rw [hdef, if_neg hany]
      have hcount0 : as.countP (fun x => x.index.isSome) = 0 := by
        rw [List.countP_eq_zero]
        intro x hx hxs
        rcases hpt x hx with ⟨hi, -, -⟩ | ⟨hi, -, -⟩
        · exact hany (List.any_eq_true.mpr ⟨x, hx, by rw [hi]; rfl⟩)
        · rw [hi] at hxs; cases hxs
      refine ⟨⟨?_, ?_⟩, ?_, ?_⟩
      · intro z hz
        rcases List.mem_append.mp hz with hz | hz
        · exact hpt z hz
        · rw [List.mem_singleton.mp hz]
          exact Or.inl ⟨hbi, hbt, hbx⟩
      · rw [List.countP_append, hcount0]
        simp [List.countP_cons, hbi]
      · rw [List.map_append, strJoin_append]
        simp [strJoin, String.append_empty]
      · rw [List.map_append, strJoin_append]
        simp [strJoin, String.append_empty]
  · have hdef : mergeBlockInto as b = as ++ [b] := by
      unfold mergeBlockInto
      rw [hbi]
    rw [hdef]
    refine ⟨⟨?_, ?_⟩, ?_, ?_⟩
    · intro z hz
      rcases List.mem_append.mp hz with hz | hz
      · exact hpt z hz
      · rw [List.mem_singleton.mp hz]
        exact Or.inr ⟨hbi, hbt, hbr, hbs⟩
    · rw [List.countP_append]
      have : ([b].countP (fun x => x.index.isSome)) = 0 := by
        simp [List.countP_cons, hbi]
      omega
    · rw [List.map_append, strJoin_append]
      simp [strJoin, String.append_empty]
    · rw [List.map_append, strJoin_append]
      simp [strJoin, String.append_empty]

theorem foldl_mergeBlockInto_measures :
    ∀ (bs as : List LCBlock), GoodBlocks as → (∀ x ∈ bs, GoodBlock x) →
      GoodBlocks (bs.foldl mergeBlockInto as) ∧
      strJoin ((bs.foldl mergeBlockInto as).map blockText) =
        strJoin (as.map blockText) ++ strJoin (bs.map blockText) ∧
      strJoin ((bs.foldl mergeBlockInto as).map blockReason) =
        strJoin (as.map blockReason) ++ strJoin (bs.map blockReason) := by
  intro bs
  induction bs with
  | nil =>
    intro as hgood _
    exact ⟨hgood, by simp [strJoin, String.append_empty],
      by simp [strJoin, String.append_empty]⟩
  | cons b rest ih =>
    intro as hgood hb
    obtain ⟨m1, m2, m3⟩ :=
      mergeBlockInto_measures as b hgood (hb b (List.mem_cons_self b rest))
    obtain ⟨i1, i2, i3⟩ := ih (mergeBlockInto as b) m1
      (fun x hx => hb x (List.mem_cons_of_mem b hx))
    rw [List.foldl_cons]
    refine ⟨i1, ?_, ?_⟩
    · rw [i2, m2, List.map_cons, strJoin, String.append_assoc]
    · rw [i3, m3, List.map_cons, strJoin, String.append_assoc]

theorem chunkTextOf_str (s : String) : chunkTextOf (.str s) = s := rfl

theorem contentReason_str (s : String) : contentReason (.str s) = "" := rfl

theorem contentReason_blocks (bs : List LCBlock) :
    contentReason (.blocks bs) = strJoin (bs.map blockReason) := rfl

theorem mergeContent_measures (a b : MContent) (ha : GoodContent a)
    (hb : GoodContent b) :
    GoodContent (mergeContent a b) ∧
    chunkTextOf (mergeContent a b) = chunkTextOf a ++ chunkTextOf b ∧
    contentReason (mergeContent a b) = contentReason a ++ contentReason b := by
  cases a with
  | str s1 =>
    cases b with
    | str s2 =>
      refine ⟨trivial, rfl, ?_⟩
      rw [show mergeContent (.str s1) (.str s2) = .str (s1 ++ s2) from rfl,
        contentReason_str, contentReason_str, contentReason_str,
        String.append_empty]
    | blocks bs =>
      by_cases hs : s1 = ""
      · subst hs
        rw [show mergeContent (.str "") (.blocks bs) = .blocks bs from by
          simp [mergeContent]]
        exact ⟨hb, by rw [chunkTextOf_str, String.empty_append],
          by rw [contentReason_str, String.empty_append]⟩
      · rw [show mergeContent (.str s1) (.blocks bs) =
            .blocks ({ type := "text", text := some s1 } :: bs) from by
          simp [mergeContent, hs]]
        obtain ⟨hbp, hbc⟩ := hb
        refine ⟨⟨?_, ?_⟩, ?_, ?_⟩
        · intro z hz
          rcases List.mem_cons.mp hz with rfl | hz
          · exact Or.inr ⟨rfl, rfl, rfl, rfl⟩
          · exact hbp z hz
        · rw [List.countP_cons]
          simpa using hbc
        · rw [chunkTextOf_blocks, chunkTextOf_blocks, List.map_cons, strJoin,
            chunkTextOf_str]
          rfl
        · rw [contentReason_blocks, contentReason_blocks, List.map_cons,
            strJoin, contentReason_str,
            show blockReason { type := "text", text := some s1 } = "" from rfl,
            String.empty_append]
  | blocks as =>
    cases b with
    | str s2 =>
      by_cases hs : s2 = ""
      · subst hs
        rw [show mergeContent (.blocks as) (.str "") = .blocks as from by
          simp [mergeContent]]
        exact ⟨ha, by rw [chunkTextOf_str, String.append_empty],
          by rw [contentReason_str, String.append_empty]⟩
      · rw [show mergeContent (.blocks as) (.str s2) =
            .blocks (as ++ [{ type := "text", text := some s2 }]) from by
          simp [mergeContent, hs]]
        obtain ⟨hap, hac⟩ := ha
        refine ⟨⟨?_, ?_⟩, ?_, ?_⟩
        · intro z hz
          rcases List.mem_append.mp hz with hz | hz
          · exact hap z hz
          · rw [List.mem_singleton.mp hz]
            exact Or.inr ⟨rfl, rfl, rfl, rfl⟩
        · rw [List.countP_append]
          have : ([({ type := "text", text := some s2 } : LCBlock)].countP
              (fun x => x.index.isSome)) = 0 := by simp [List.countP_cons]
          omega
        · rw [chunkTextOf_blocks, List.map_append, strJoin_append,
            chunkTextOf_blocks, chunkTextOf_str,
            show strJoin ([({ type := "text", text := some s2 } :
              LCBlock)].map blockText) = s2 ++ "" from rfl,
            String.append_empty]
        · rw [contentReason_blocks, List.map_append, strJoin_append,
            contentReason_blocks, contentReason_str,
            show strJoin ([({ type := "text", text := some s2 } :
              LCBlock)].map blockReason) = "" ++ "" from rfl,
            String.append_empty, String.append_empty]
    | blocks bs =>
      rw [show mergeContent (.blocks as) (.blocks bs) =
          .blocks (bs.foldl mergeBlockInto as) from rfl]
      obtain ⟨f1, f2, f3⟩ := foldl_mergeBlockInto_measures bs as ha hb.1
      exact ⟨f1, by rw [chunkTextOf_blocks, chunkTextOf_blocks,
          chunkTextOf_blocks, f2],
        by rw [contentReason_blocks, contentReason_blocks,
          contentReason_blocks, f3]⟩

theorem convertPartToChunk_measures (fr : String) (p : Part) (idx : Nat) :
    GoodContent (convertPartToChunk fr p idx).content ∧
    chunkTextOf (convertPartToChunk fr p idx).content = partPlain p ∧
    contentReason (convertPartToChunk fr p idx).content = partReason p ∧
    (convertPartToChunk fr p idx).response_metadata.thoughtSignature =
      truthySig p := by
  cases hpt : p.text with
  | some t =>
    cases hth : p.thought with
    | true =>
      have hcc : convertPartToChunk fr p idx =
          { content :=
              .blocks [{ type := "reasoning", reasoning := some t, index := some 0 }],
            response_metadata := { thoughtSignature := truthySig p } } := by
        simp [convertPartToChunk, hpt, hth, truthySig]
      rw [hcc]
      refine ⟨⟨?_, ?_⟩, ?_, ?_, rfl⟩
      · intro z hz
        rw [List.mem_singleton.mp hz]
        exact Or.inl ⟨rfl, rfl, rfl⟩
      · simp [List.countP_cons]
      · rw [show chunkTextOf
            (.blocks [{ type := "reasoning", reasoning := some t, index := some 0 }]) =
            "" from rfl]
        simp [partPlain, hpt, hth]
      · rw [show contentReason
            (.blocks [{ type := "reasoning", reasoning := some t, index := some 0 }]) =
            t ++ "" from rfl,
          String.append_empty]
        simp [partReason, hpt, hth]
    | false =>
      have hcc : convertPartToChunk fr p idx =
          { content := .str t,
            response_metadata := { thoughtSignature := truthySig p } } := by
        simp [convertPartToChunk, hpt, hth, truthySig]
      rw [hcc]
      refine ⟨trivial, ?_, ?_, rfl⟩
      · simp [chunkTextOf, partPlain, hpt, hth]
      · simp [contentReason, partReason, hpt, hth]
  | none =>
    have hcc : ∃ tcc, convertPartToChunk fr p idx =
        { content := .str "", tool_call_chunks := tcc,
          response_metadata := { thoughtSignature := truthySig p } } := by
      cases hfc : p.functionCall with
      | some fc =>
        exact ⟨[convertFunctionCallToToolCallChunk fr fc idx],
          by simp [convertPartToChunk, hpt, hfc, truthySig]⟩
      | none => exact ⟨[], by simp [convertPartToChunk, hpt, hfc, truthySig]⟩
    obtain ⟨tcc, hcc⟩ := hcc
    rw [hcc]
    refine ⟨trivial, ?_, ?_, rfl⟩
    · simp [chunkTextOf, partPlain, hpt]
    · simp [contentReason, partReason, hpt]

theorem concatChunks_sig (a b : AIMessageChunk) :
    (concatChunks a b).response_metadata.thoughtSignature =
      (match b.response_metadata.thoughtSignature with
       | some s => some s
       | none => a.response_metadata.thoughtSignature) := rfl

theorem lastSigFrom_cons (init : Option String) (p : Part) (ps : List Part) :
    lastSigFrom init (p :: ps) =
      lastSigFrom
        (match truthySig p with
         | some s => some s
         | none => init) ps := rfl

theorem lastSigFrom_append (init : Option String) (ps qs : List Part) :
    lastSigFrom init (ps ++ qs) = lastSigFrom (lastSigFrom init ps) qs := by
  unfold lastSigFrom
  rw [List.foldl_append]

theorem lastSigFrom_shift (ps : List Part) :
    ∀ init, lastSigFrom init ps =
      (match lastSigFrom none ps with
       | some s => some s
       | none => init) := by
  induction ps with
  | nil => intro init; rfl
  | cons p rest ih =>
    intro init
    rw [lastSigFrom_cons, lastSigFrom_cons]
    cases hts : truthySig p with
    | some s =>
      rw [ih (some s)]
      cases lastSigFrom none rest <;> rfl
    | none =>
      rw [ih init]

theorem partFold_measures (fresh : Nat → String) :
    ∀ (ps : List Part) (n : Nat) (c : AIMessageChunk),
      GoodContent c.content →
      ∃ d, (List.enumFrom n ps).foldl (partStep fresh) (some c) = some d ∧
        GoodContent d.content ∧
        chunkTextOf d.content =
          chunkTextOf c.content ++ strJoin (ps.map partPlain) ∧
        contentReason d.content =
          contentReason c.content ++ strJoin (ps.map partReason) ∧
        d.response_metadata.thoughtSignature =
          lastSigFrom c.response_metadata.thoughtSignature ps := by
  intro ps
  induction ps with
  | nil =>
    intro n c hc
    exact ⟨c, rfl, hc, by rw [List.map_nil, strJoin, String.append_empty],
      by rw [List.map_nil, strJoin, String.append_empty], rfl⟩
  | cons p rest ih =>
    intro n c hc
    obtain ⟨pm1, pm2, pm3, pm4⟩ := convertPartToChunk_measures (fresh n) p n
    obtain ⟨gm, tm, rm⟩ :=
      mergeContent_measures c.content (convertPartToChunk (fresh n) p n).content
        hc pm1
    obtain ⟨d, hd, hdg, hdt, hdr, hds⟩ :=
      ih (n + 1) (concatChunks c (convertPartToChunk (fresh n) p n)) gm
    refine ⟨d, ?_, hdg, ?_, ?_, ?_⟩
    · rw [show List.enumFrom n (p :: rest) =
          (n, p) :: List.enumFrom (n + 1) rest from rfl, List.foldl_cons]
      exact hd
    · rw [hdt, show (concatChunks c (convertPartToChunk (fresh n) p n)).content =
          mergeContent c.content (convertPartToChunk (fresh n) p n).content
          from rfl, tm, pm2, List.map_cons, strJoin, String.append_assoc]
    · rw [hdr, show (concatChunks c (convertPartToChunk (fresh n) p n)).content =
          mergeContent c.content (convertPartToChunk (fresh n) p n).content
          from rfl, rm, pm3, List.map_cons, strJoin, String.append_assoc]
    · rw [hds, concatChunks_sig, pm4, lastSigFrom_cons]

theorem reduceParts_full (fresh : Nat → String) (ps : List Part)
    (h : ps ≠ []) :
    ∃ d, reduceParts fresh ps = some d ∧
      GoodContent d.content ∧
      chunkTextOf d.content = strJoin (ps.map partPlain) ∧
      contentReason d.content = strJoin (ps.map partReason) ∧
      d.response_metadata.thoughtSignature = lastSigFrom none ps := by
  cases ps with
  | nil => exact absurd rfl h
  | cons p rest =>
    obtain ⟨pm1, pm2, pm3, pm4⟩ := convertPartToChunk_measures (fresh 0) p 0
    obtain ⟨d, hd, hdg, hdt, hdr, hds⟩ :=
      partFold_measures fresh rest 1 (convertPartToChunk (fresh 0) p 0) pm1
    refine ⟨d, ?_, hdg, ?_, ?_, ?_⟩
    · rw [reduceParts, List.enum_cons, List.foldl_cons]
      exact hd
    · rw [hdt, pm2, List.map_cons, strJoin]
    · rw [hdr, pm3, List.map_cons, strJoin]
    · rw [hds, pm4, lastSigFrom_cons]
      cases truthySig p <;> rfl

theorem streamChunk_mkDelta (fr : Nat → String) (ps : List Part)
    (h : ps ≠ []) :
    ∃ d, reduceParts fr ps = some d ∧
      convertGoogleStreamChunkToLangChainChunk fr (mkDelta ps) =
        some ⟨d, chunkTextOf d.content⟩ ∧
      GoodContent d.content ∧
      chunkTextOf d.content = strJoin (ps.map partPlain) ∧
      contentReason d.content = strJoin (ps.map partReason) ∧
      d.response_metadata.thoughtSignature = lastSigFrom none ps := by
  obtain ⟨d, hd, hdg, hdt, hdr, hds⟩ := reduceParts_full fr ps h
  refine ⟨d, hd, ?_, hdg, hdt, hdr, hds⟩
  show (match reduceParts fr ps with
    | none => none
    | some c => some (⟨c, chunkTextOf c.content⟩ : ChatGenerationChunk)) =
    some ⟨d, chunkTextOf d.content⟩
  rw [hd]

theorem streamFold_measures (fresh : Nat → Nat → String) :
    ∀ (pss : List (List Part)) (n : Nat) (g : ChatGenerationChunk),
      GoodContent g.message.content →
      (∀ ps ∈ pss, ps ≠ []) →
      ∃ res,
        (List.enumFrom n (pss.map mkDelta)).foldl (streamFoldStep fresh)
          (some g) = some res ∧
        GoodContent res.message.content ∧
        res.text = g.text ++ strJoin (pss.flatten.map partPlain) ∧
        chunkTextOf res.message.content =
          chunkTextOf g.message.content ++ strJoin (pss.flatten.map partPlain) ∧
        contentReason res.message.content =
          contentReason g.message.content ++
            strJoin (pss.flatten.map partReason) ∧
        res.message.response_metadata.thoughtSignature =
          lastSigFrom g.message.response_metadata.thoughtSignature
            pss.flatten := by
  intro pss
  induction pss with
  | nil =>
    intro n g hg _
    exact ⟨g, rfl, hg, by rw [List.flatten_nil, List.map_nil, strJoin,
        String.append_empty],
      by rw [List.flatten_nil, List.map_nil, strJoin, String.append_empty],
      by rw [List.flatten_nil, List.map_nil, strJoin, String.append_empty],
      rfl⟩
  | cons ps rest ih =>
    intro n g hg hne
    obtain ⟨d, hd, hconv, hdg, hdt, hdr, hds⟩ :=
      streamChunk_mkDelta (fresh n) ps (hne ps (List.mem_cons_self ps rest))
    obtain ⟨gm, tm, rm⟩ :=
      mergeContent_measures g.message.content d.content hg hdg
    obtain ⟨res, hres, hrg, hrt, hrct, hrcr, hrs⟩ :=
      ih (n + 1) (concatGenerationChunks g ⟨d, chunkTextOf d.content⟩) gm
        (fun qs hqs => hne qs (List.mem_cons_of_mem ps hqs))
    refine ⟨res, ?_, hrg, ?_, ?_, ?_, ?_⟩
    · rw [List.map_cons,
        show List.enumFrom n (mkDelta ps :: rest.map mkDelta) =
          (n, mkDelta ps) :: List.enumFrom (n + 1) (rest.map mkDelta) from rfl,
        List.foldl_cons,
        show streamFoldStep fresh (some g) (n, mkDelta ps) =
          some (concatGenerationChunks g ⟨d, chunkTextOf d.content⟩) from by
          unfold streamFoldStep
          rw [hconv]]
      exact hres
    · rw [hrt,
        show (concatGenerationChunks g ⟨d, chunkTextOf d.content⟩).text =
          g.text ++ chunkTextOf d.content from rfl,
        hdt, List.flatten_cons, List.map_append, strJoin_append,
        String.append_assoc]
    · rw [hrct,
        show (concatGenerationChunks g ⟨d, chunkTextOf d.content⟩).message =
          concatChunks g.message d from rfl,
        show (concatChunks g.message d).content =
          mergeContent g.message.content d.content from rfl,
        tm, hdt, List.flatten_cons, List.map_append, strJoin_append,
        String.append_assoc]
    · rw [hrcr,
        show (concatGenerationChunks g ⟨d, chunkTextOf d.content⟩).message =
          concatChunks g.message d from rfl,
        show (concatChunks g.message d).content =
          mergeContent g.message.content d.content from rfl,
        rm, hdr, List.flatten_cons, List.map_append, strJoin_append,
        String.append_assoc]
    · rw [hrs,
        show (concatGenerationChunks g ⟨d, chunkTextOf d.content⟩).message =
          concatChunks g.message d from rfl,
        concatChunks_sig, hds, List.flatten_cons, lastSigFrom_append,
        ← lastSigFrom_shift ps g.message.response_metadata.thoughtSignature]

theorem stdText_eq_partPlain (ps : List Part) :
    stdText ps = strJoin (ps.map partPlain) := by
  induction ps with
  | nil => rfl
  | cons p rest ih =>
    rw [List.map_cons, strJoin]
    cases hpt : p.text with
    | none =>
      have h1 : plainTextOf p = none := by simp [plainTextOf, truthyText, hpt]
      have h2 : partPlain p = "" := by simp [partPlain, hpt]
      rw [show stdText (p :: rest) = strJoin ((p :: rest).filterMap plainTextOf)
          from rfl, List.filterMap_cons, h1, h2, String.empty_append]
      exact ih
    | some t =>
      cases hth : p.thought with
      | true =>
        have h1 : plainTextOf p = none := by
          unfold plainTextOf
          cases htt : truthyText p with
          | none => rfl
          | some u => simp [hth]
        have h2 : partPlain p = "" := by simp [partPlain, hpt, hth]
        rw [show stdText (p :: rest) =
            strJoin ((p :: rest).filterMap plainTextOf) from rfl,
          List.filterMap_cons, h1, h2, String.empty_append]
        exact ih
      | false =>
        by_cases ht : t = ""
        · subst ht
          have h1 : plainTextOf p = none := by
            simp [plainTextOf, truthyText, hpt]
          have h2 : partPlain p = "" := by simp [partPlain, hpt, hth]
          rw [show stdText (p :: rest) =
              strJoin ((p :: rest).filterMap plainTextOf) from rfl,
            List.filterMap_cons, h1, h2, String.empty_append]
          exact ih
        · have h1 : plainTextOf p = some t := by
            simp [plainTextOf, truthyText, hpt, hth, ht]
          have h2 : partPlain p = t := by simp [partPlain, hpt, hth]
          rw [show stdText (p :: rest) =
              strJoin ((p :: rest).filterMap plainTextOf) from rfl,
            List.filterMap_cons, h1, h2]
          rw [show strJoin (t :: rest.filterMap plainTextOf) =
              t ++ strJoin (rest.filterMap plainTextOf) from rfl]
          rw [show strJoin (rest.filterMap plainTextOf) = stdText rest from rfl,
            ih]

theorem thoughts_eq_partReason (ps : List Part) :
    strJoin (ps.filterMap thoughtTextOf) = strJoin (ps.map partReason) := by
  induction ps with
  | nil => rfl
  | cons p rest ih =>
    rw [List.map_cons, strJoin, List.filterMap_cons]
    cases hpt : p.text with
    | none =>
      have h1 : thoughtTextOf p = none := by
        simp [thoughtTextOf, truthyText, hpt]
      have h2 : partReason p = "" := by simp [partReason, hpt]
      rw [h1, h2, String.empty_append]
      exact ih
    | some t =>
      cases hth : p.thought with
      | false =>
        have h1 : thoughtTextOf p = none := by
          unfold thoughtTextOf
          cases htt : truthyText p with
          | none => rfl
          | some u => simp [hth]
        have h2 : partReason p = "" := by simp [partReason, hpt, hth]
        rw [h1, h2, String.empty_append]
        exact ih
      | true =>
        by_cases ht : t = ""
        · subst ht
          have h1 : thoughtTextOf p = none := by
            simp [thoughtTextOf, truthyText, hpt]
          have h2 : partReason p = "" := by simp [partReason, hpt, hth]
          rw [h1, h2, String.empty_append]
          exact ih
        · have h1 : thoughtTextOf p = some t := by
            simp [thoughtTextOf, truthyText, hpt, hth, ht]
          have h2 : partReason p = t := by simp [partReason, hpt, hth]
          rw [h1, h2,
            show strJoin (t :: rest.filterMap thoughtTextOf) =
              t ++ strJoin (rest.filterMap thoughtTextOf) from rfl, ih]

theorem lastTruthy_eq_lastSigFrom (ps : List Part) :
    lastTruthy Part.thoughtSignature ps = lastSigFrom none ps := by
  suffices h : ∀ init, ps.foldl
      (fun acc p =>
        match p.thoughtSignature with
        | some s => if s = "" then acc else some s
        | none => acc) init = lastSigFrom init ps by
    exact h none
  induction ps with
  | nil => intro init; rfl
  | cons p rest ih =>
    intro init
    rw [List.foldl_cons, lastSigFrom_cons]
    have hstep : (match p.thoughtSignature with
        | some s => if s = "" then init else some s
        | none => init) =
        (match truthySig p with
         | some s => some s
         | none => init) := by
      cases hps : p.thoughtSignature with
      | none => simp [truthySig, hps]
      | some s =>
        by_cases hs : s = ""
        · simp [truthySig, hps, hs]
        · simp [truthySig, hps, hs]
    rw [hstep]
    exact ih _

/-- C10: the `text` field of a yielded standard-protocol generation
chunk is the concatenation of exactly the plain (non-thought) text of
the delta's parts; text carried by thought-marked parts never
contributes to it. -/
theorem c10_stream_text (fresh : Nat → String) (response : GResponse)
    (g : ChatGenerationChunk)
    (h : convertGoogleStreamChunkToLangChainChunk fresh response = some g) :
    g.text = strJoin ((partsOfResponse response).map partPlain) := by
  cases h1 : (response.candidates.getD []).head? with
  | none =>
    have hp : partsOfResponse response = [] := by
      unfold partsOfResponse
      rw [h1]
      rfl
    rw [hp]
    cases hu : response.usageMetadata with
    | none =>
      have hc : convertGoogleStreamChunkToLangChainChunk fresh response =
          none := by
        unfold convertGoogleStreamChunkToLangChainChunk
        rw [h1]
        show (match response.usageMetadata with
          | some u => some (⟨{ content := .str "", usage_metadata := extractUsageMetadata (some u) }, ""⟩ : ChatGenerationChunk)
          | none => none) = none
        rw [hu]
      rw [hc] at h
      cases h
    | some u =>
      have hc : convertGoogleStreamChunkToLangChainChunk fresh response =
          some ⟨{ content := .str "", usage_metadata := extractUsageMetadata (some u) }, ""⟩ := by
        unfold convertGoogleStreamChunkToLangChainChunk
        rw [h1]
        show (match response.usageMetadata with
          | some u => some (⟨{ content := .str "", usage_metadata := extractUsageMetadata (some u) }, ""⟩ : ChatGenerationChunk)
          | none => none) = _
        rw [hu]
      rw [hc] at h
      injection h with h
      subst h
      rfl
  | some cand =>
    have hc : convertGoogleStreamChunkToLangChainChunk fresh response =
        streamChunkOfCandidate fresh response cand := by
      unfold convertGoogleStreamChunkToLangChainChunk
      rw [h1]
    rw [hc] at h
    have hp : partsOfResponse response =
        (cand.content.bind CandContent.parts).getD [] := by
      unfold partsOfResponse
      rw [h1]
      rfl
    rw [hp]
    cases h2 : cand.content with
    | none =>
      have hn : streamChunkOfCandidate fresh response cand = none := by
        unfold streamChunkOfCandidate
        rw [h2]
      rw [hn] at h
      cases h
    | some cc =>
      cases h3 : cc.parts with
      | none =>
        have hn : streamChunkOfCandidate fresh response cand = none := by
          unfold streamChunkOfCandidate
          rw [h2]
          show (match (match cc.parts with
              | none => none
              | some ps => reduceParts fresh ps) with
            | none => none
            | some c =>
              let c := match response.usageMetadata with
                | some u =>
                  { c with usage_metadata := extractUsageMetadata (some u) }
                | none => c
              some (⟨c, chunkTextOf c.content⟩ : ChatGenerationChunk)) = none
          rw [h3]
        rw [hn] at h
        cases h
      | some ps =>
        by_cases hps : ps = []
        · subst hps
          have hn : streamChunkOfCandidate fresh response cand = none := by
            unfold streamChunkOfCandidate
            rw [h2]
            show (match (match cc.parts with
                | none => none
                | some ps => reduceParts fresh ps) with
              | none => none
              | some c =>
                let c := match response.usageMetadata with
                  | some u =>
                    { c with usage_metadata := extractUsageMetadata (some u) }
                  | none => c
                some (⟨c, chunkTextOf c.content⟩ : ChatGenerationChunk)) = none
            rw [h3]
            rfl
          rw [hn] at h
          cases h
        · obtain ⟨d, hdred, hdg, hdt, hdr, hds⟩ := reduceParts_full fresh ps hps
          have hsc : streamChunkOfCandidate fresh response cand =
              some ⟨(match response.usageMetadata with
                  | some u =>
                    { d with usage_metadata := extractUsageMetadata (some u) }
                  | none => d),
                chunkTextOf (match response.usageMetadata with
                  | some u =>
                    { d with usage_metadata := extractUsageMetadata (some u) }
                  | none => d).content⟩ := by
            unfold streamChunkOfCandidate
            rw [h2]
            show (match (match cc.parts with
                | none => none
                | some ps => reduceParts fresh ps) with
              | none => none
              | some c =>
                let c := match response.usageMetadata with
                  | some u =>
                    { c with usage_metadata := extractUsageMetadata (some u) }
                  | none => c
                some (⟨c, chunkTextOf c.content⟩ : ChatGenerationChunk)) = _
            rw [h3]
            show (match reduceParts fresh ps with
              | none => none
              | some c =>
                let c := match response.usageMetadata with
                  | some u =>
                    { c with usage_metadata := extractUsageMetadata (some u) }
                  | none => c
                some (⟨c, chunkTextOf c.content⟩ : ChatGenerationChunk)) = _
            rw [hdred]
          rw [hsc] at h
          injection h with h
          subst h
          have hparts : (((some cc).bind CandContent.parts).getD []) = ps := by
            rw [show ((some cc).bind CandContent.parts) = cc.parts from rfl, h3]
            rfl
          rw [hparts]
          have hcc : (match response.usageMetadata with
              | some u =>
                { d with usage_metadata := extractUsageMetadata (some u) }
              | none => d).content = d.content := by
            cases response.usageMetadata <;> rfl
          show chunkTextOf (match response.usageMetadata with
            | some u =>
              { d with usage_metadata := extractUsageMetadata (some u) }
            | none => d).content = _
          rw [hcc, hdt]

/-- C10, witness: a single plain-text delta. -/
theorem c10_witness :
    (⟨{ content := .str "t", tool_call_chunks := [], response_metadata := {},
        usage_metadata := none }, "t"⟩ : ChatGenerationChunk).text =
      strJoin ((partsOfResponse (mkDelta [{ text := some "t" }])).map
        partPlain) :=
  c10_stream_text (fun _ => "u") (mkDelta [{ text := some "t" }]) _ rfl

/-- C2, counterexample: splitting a response whose candidate carries two
thought parts `"a"` and `"b"` into two single-part deltas and folding
them yields a message with ONE coalesced reasoning block (`"ab"`, merged
through the pinned index 0), while decoding the unsplit response yields
TWO reasoning blocks — the streamed and non-streamed messages do not
have equal content blocks. -/
theorem c2_counterexample :
    (foldStream (fun _ _ => "u")
        [mkDelta [{ text := some "a", thought := true }],
         mkDelta [{ text := some "b", thought := true }]]).map
      (fun g => mcLength g.message.content) = some 1 ∧
    (convertGoogleResponseToChatGeneration (fun _ => "u")
        (mkDelta [{ text := some "a", thought := true },
          { text := some "b", thought := true }])).toOption.map
      (fun gen => mcLength gen.message.content) = some 2 :=
  ⟨rfl, rfl⟩

/-- C2, amended: for every partition of a response's parts into nonempty
ordered deltas, folding the converted deltas agrees with the full
decoder on the flat text, on the concatenated reasoning text, and on the
recorded continuation signature.  Equality of the content-block
sequences themselves fails in general: the stream accumulator coalesces
all reasoning parts into a single block, and freshly generated tool-call
identifiers need not coincide between the two paths. -/
theorem c2_amended (pss : List (List Part)) (freshS : Nat → Nat → String)
    (freshD : Nat → String) (h1 : pss ≠ []) (h2 : ∀ ps ∈ pss, ps ≠ []) :
    ∃ g gen,
      foldStream freshS (pss.map mkDelta) = some g ∧
      convertGoogleResponseToChatGeneration freshD (mkDelta pss.flatten) =
        .ok gen ∧
      g.text = gen.text ∧
      contentReason g.message.content = strJoin gen.message.meta.thoughts ∧
      g.message.response_metadata.thoughtSignature =
        gen.message.meta.thoughtSignature := by
  obtain ⟨ps0, rest, rfl⟩ := List.exists_cons_of_ne_nil h1
  have hps0 : ps0 ≠ [] := h2 ps0 (List.mem_cons_self ps0 rest)
  obtain ⟨d0, hred0, hconv0, hg0, ht0, hr0, hs0⟩ :=
    streamChunk_mkDelta (freshS 0) ps0 hps0
  obtain ⟨res, hfold, hrg, hrt, hrct, hrcr, hrs⟩ :=
    streamFold_measures freshS rest 1 ⟨d0, chunkTextOf d0.content⟩ hg0
      (fun qs hqs => h2 qs (List.mem_cons_of_mem ps0 hqs))
  refine ⟨res, decodeCandidate freshD (mkDelta (ps0 :: rest).flatten)
      { content := some { parts := some (ps0 :: rest).flatten } }
      { parts := some (ps0 :: rest).flatten }, ?_, ?_, ?_, ?_, ?_⟩
  · rw [foldStream, List.map_cons, List.enum_cons, List.foldl_cons,
      show streamFoldStep freshS none (0, mkDelta ps0) =
        some ⟨d0, chunkTextOf d0.content⟩ from by
        unfold streamFoldStep
        rw [hconv0]]
    exact hfold
  · exact decode_ok_form freshD (mkDelta (ps0 :: rest).flatten)
      { content := some { parts := some (ps0 :: rest).flatten } }
      { parts := some (ps0 :: rest).flatten } rfl rfl
  · rw [hrt]
    show chunkTextOf d0.content ++ strJoin (rest.flatten.map partPlain) =
      stdText (ps0 :: rest).flatten
    rw [ht0, stdText_eq_partPlain, List.flatten_cons, List.map_append,
      strJoin_append]
  · rw [hrcr]
    show contentReason d0.content ++ strJoin (rest.flatten.map partReason) =
      strJoin ((ps0 :: rest).flatten.filterMap thoughtTextOf)
    rw [hr0, thoughts_eq_partReason, List.flatten_cons, List.map_append,
      strJoin_append]
  · rw [hrs]
    show lastSigFrom d0.response_metadata.thoughtSignature rest.flatten =
      lastTruthy Part.thoughtSignature ((ps0 :: rest).flatten)
    rw [hs0, ← lastSigFrom_append, lastTruthy_eq_lastSigFrom,
      List.flatten_cons]

/-- C2, witness: the trivial partition of a single-text-part response. -/
theorem c2_witness :
    ∃ g gen,
      foldStream (fun _ _ => "u")
        ([[{ text := some "hi" }]].map mkDelta) = some g ∧
      convertGoogleResponseToChatGeneration (fun _ => "u")
        (mkDelta ([[({ text := some "hi" } : Part)]].flatten)) = .ok gen ∧
      g.text = gen.text ∧
      contentReason g.message.content = strJoin gen.message.meta.thoughts ∧
      g.message.response_metadata.thoughtSignature =
        gen.message.meta.thoughtSignature :=
  c2_amended [[{ text := some "hi" }]] (fun _ _ => "u") (fun _ => "u")
    (by decide) (by decide)

end GenAI
